import Mathlib

/-!
# miniFmSynth: a shallow embedding of `miniFmSynth.h`

The voice pool, the ADSR envelope, the FM oscillator and the control
operations of the synthesiser are translated function by function.

Modelling conventions
* `float` values are exact rationals (`ℚ`): rounding, infinities and NaN are
  not modelled, decimal literals of the source denote their decimal value.
* `uint8_t` / `int` values are natural numbers or integers.
* The global arrays `voices[MAX_VOICES]` and `voiceInstrument[MAX_VOICES]`
  are functions on `Fin MAX_VOICES`; `sineTable` is a function on
  `Fin SINE_TABLE_SIZE`.  A read at a `uint8_t` index goes through `rd`,
  a write at an `int` index through `wr`.
* `expf`, `sinf` and the Arduino constant `TWO_PI` are not defined in the
  repository; they are the fields of `Env`.  The `const` table `instruments`
  is a field of `Env` too, so that statements can range over every bank;
  the table of the source is the definition `instruments`.
* `fmodf`, the conversions of `float` to integer types and the Arduino function `map`
  are written out from their documented behaviour.
* Calls to `Serial` only log text and are left out.
* A run of the program is a list of calls (`Op`) applied to the globals at program
  start (`run`); `synthProcess` is one pass of its `for` loop (`fillBuffer`).
-/

namespace MiniFmSynth

/-! ## Constants -/

abbrev SAMPLE_RATE : Nat := 44100
abbrev SAMPLE_BUFFER_SIZE : Nat := 64
abbrev MAX_VOICES : Nat := 8
abbrev NUM_INSTRUMENTS : Nat := 12

abbrev ADSR_IDLE : Nat := 0
abbrev ADSR_ATTACK : Nat := 1
abbrev ADSR_DECAY : Nat := 2
abbrev ADSR_SUSTAIN : Nat := 3
abbrev ADSR_RELEASE : Nat := 4

abbrev SINE_TABLE_SIZE : Nat := 2048

/-- The constant `TIME_STEP = 1.0f / SAMPLE_RATE`. -/
def TIME_STEP : ℚ := 1 / (SAMPLE_RATE : ℚ)

/-- The macro `enRango(v, rI, rS)`. -/
def enRango {α : Type} [LT α] [DecidableRel (fun a b : α => a < b)] (v rI rS : α) : α :=
  if v > rS then rS else (if v < rI then rI else v)

/-! ## Data model -/

/-- The struct `FmVoice`. -/
structure FmVoice where
  carrierFreq : ℚ
  modulatorFreq : ℚ
  modulationIndex : ℚ
  amplitude : ℚ
  phase : ℚ
  modPhase : ℚ
  currentLevel : ℚ
  state : Nat
  active : Bool
  timeElapsed : ℚ
  note : Nat
  channel : Nat
deriving DecidableEq

/-- The default member initialisers of `FmVoice`. -/
def FmVoice.init : FmVoice :=
  { carrierFreq := 0, modulatorFreq := 0, modulationIndex := 0, amplitude := 0,
    phase := 0, modPhase := 0, currentLevel := 0, state := ADSR_IDLE, active := false,
    timeElapsed := 0, note := 0, channel := 0 }

/-- The struct `Instrument`. -/
structure Instrument where
  loudness : ℚ
  pitchOffset : ℚ
  attack : ℚ
  decay : ℚ
  sustain : ℚ
  release : ℚ
  fmFreqMultiplier : ℚ
  fmAmpStart : ℚ
  fmAmpEnd : ℚ
  fmDecay : ℚ
deriving DecidableEq

/-- What the program takes from its platform, and the instrument bank. -/
structure Env where
  expf : ℚ → ℚ
  sinf : ℚ → ℚ
  TWO_PI : ℚ
  instruments : Fin NUM_INSTRUMENTS → Instrument

/-- The mutable globals of the program. -/
structure Synth where
  voices : Fin MAX_VOICES → FmVoice
  voiceInstrument : Fin MAX_VOICES → Nat
  globalVolume : ℚ
  sineTable : Fin SINE_TABLE_SIZE → ℚ

/-- Array read `a[i]` at an unsigned index; outside the array (undefined in C)
the model gives `d`. -/
def rd {α : Type} {n : Nat} (a : Fin n → α) (d : α) (i : Nat) : α :=
  if h : i < n then a ⟨i, h⟩ else d

/-- Array write `a[i] = x`; outside the array the model writes nothing. -/
def wr {α : Type} {n : Nat} (a : Fin n → α) (i : Nat) (x : α) : Fin n → α :=
  fun j => if j.val = i then x else a j

/-- The table `instruments` of the source, rows in source order. -/
def instrumentRows : List Instrument :=
  [ ⟨57.6, 0, 0.05, 0.3, 0.6, 0.5, 256, 128, 51.2, 102.4⟩,
    ⟨51.2, 12, 0.01, 0.15, 0.0, 0.2, 768, 512, 128, 25.6⟩,
    ⟨44.8, 0, 0.03, 0.4, 0.5, 0.6, 384, 256, 76.8, 128⟩,
    ⟨38.4, 24, 0.001, 0.8, 0.0, 0.4, 1280, 1024, 256, 179.2⟩,
    ⟨51.2, 12, 0.02, 0.9, 0.0, 0.3, 640, 384, 51.2, 204.8⟩,
    ⟨57.6, 0, 0.03, 0.2, 0.7, 0.3, 128, 768, 256, 51.2⟩,
    ⟨44.8, 12, 0.1, 0.3, 0.6, 0.4, 512, 307.2, 102.4, 153.6⟩,
    ⟨38.4, 24, 0.01, 1.0, 0.0, 0.5, 1792, 1280, 256, 230.4⟩,
    ⟨51.2, 0, 0.2, 0.1, 0.9, 0.6, 256, 76.8, 25.6, 76.8⟩,
    ⟨64, -12, 0.05, 0.2, 0.8, 0.4, 128, 128, 51.2, 76.8⟩,
    ⟨57.6, 0, 0.08, 0.2, 0.8, 0.3, 307.2, 256, 128, 51.2⟩,
    ⟨51.2, 0, 0.04, 0.2, 0.7, 0.3, 384, 204.8, 76.8, 102.4⟩ ]

/-- The zero-filled instrument, the value of a read outside the bank. -/
def Instrument.zero : Instrument := ⟨0, 0, 0, 0, 0, 0, 0, 0, 0, 0⟩

/-- The array `instruments[NUM_INSTRUMENTS]`. -/
def instruments : Fin NUM_INSTRUMENTS → Instrument :=
  fun i => instrumentRows.getD i.val Instrument.zero

/-- The expression `instruments[voiceInstrument[channel]]`. -/
def instrOf (env : Env) (s : Synth) (channel : Nat) : Instrument :=
  rd env.instruments Instrument.zero (rd s.voiceInstrument 0 channel)

/-! ## Voice allocation -/

/-- The second loop of `findFreeVoice`: the scan for the greatest `timeElapsed`,
carrying `(oldestVoice, oldestTime)`. -/
def oldestScan (voices : Fin MAX_VOICES → FmVoice) : Nat × ℚ :=
  ((List.finRange MAX_VOICES).tail).foldl
    (fun acc i => if (voices i).timeElapsed > acc.2 then (i.val, (voices i).timeElapsed) else acc)
    (0, (voices 0).timeElapsed)

/-- The function `findFreeVoice`. -/
def findFreeVoice (s : Synth) : Nat :=
  match (List.finRange MAX_VOICES).find? (fun i => !(s.voices i).active) with
  | some i => i.val
  | none => (oldestScan s.voices).1

/-! ## Conversions and library functions -/

/-- Conversion of a `float` to an integer type: the fractional part is dropped. -/
def truncToInt (q : ℚ) : ℤ := if 0 ≤ q then ⌊q⌋ else ⌈q⌉

/-- Conversion of a `float` argument to `uint8_t`.  C defines it only when the
truncated value is in `0..255`; elsewhere the model reduces modulo 256. -/
def toUint8 (q : ℚ) : Nat := (truncToInt q % 256).toNat

/-- The library function `fmodf`: the remainder of the truncated quotient, which keeps
the sign of `x`. -/
def fmodf (x y : ℚ) : ℚ := x - (truncToInt (x / y) : ℚ) * y

/-- Modelled from the spec: the Arduino function `map`, which the repository uses but
does not define, `(x - in_min) * (out_max - out_min) / (in_max - in_min) + out_min`
in integer arithmetic with truncating division. -/
def map (x in_min in_max out_min out_max : ℤ) : ℤ :=
  Int.tdiv ((x - in_min) * (out_max - out_min)) (in_max - in_min) + out_min

/-- The function `midi2Freq`. -/
def midi2Freq (env : Env) (midiNote : Nat) : ℚ :=
  8.17579891 * env.expf (0.05776226 * (midiNote : ℚ))

/-- The macro `SINE_SCALE`. -/
def SINE_SCALE (env : Env) : ℚ := (SINE_TABLE_SIZE : ℚ) / env.TWO_PI

/-- The function `initSineTable`. -/
def initSineTable (env : Env) (s : Synth) : Synth :=
  { s with sineTable := fun i => env.sinf ((i.val : ℚ) * env.TWO_PI / (SINE_TABLE_SIZE : ℚ)) }

/-- The index expression `(int)(phase * SINE_SCALE) & (SINE_TABLE_SIZE - 1)` on 32-bit
two's-complement integers. -/
def sineIndex (env : Env) (phase : ℚ) : Nat :=
  (truncToInt (phase * SINE_SCALE env) % 4294967296).toNat &&& (SINE_TABLE_SIZE - 1)

/-! ## Envelope -/

/-- The function `updateADSR`. -/
def updateADSR (voice : FmVoice) (instr : Instrument) (timeStep : ℚ) : FmVoice :=
  if voice.state = ADSR_ATTACK then
    let level := voice.currentLevel + timeStep / instr.attack
    if level ≥ 1 then { voice with currentLevel := 1, state := ADSR_DECAY }
    else { voice with currentLevel := level }
  else if voice.state = ADSR_DECAY then
    let level := voice.currentLevel - timeStep / instr.decay * (1 - instr.sustain)
    if level ≤ instr.sustain then
      if instr.sustain = 0 then { voice with currentLevel := instr.sustain, state := ADSR_RELEASE }
      else { voice with currentLevel := instr.sustain, state := ADSR_SUSTAIN }
    else { voice with currentLevel := level }
  else if voice.state = ADSR_RELEASE then
    let level := voice.currentLevel - timeStep / instr.release
    if level ≤ 0 then { voice with currentLevel := 0, state := ADSR_IDLE, active := false }
    else { voice with currentLevel := level }
  else if voice.state = ADSR_SUSTAIN then
    { voice with currentLevel := instr.sustain, timeElapsed := voice.timeElapsed + timeStep }
  else voice

/-! ## Control operations -/

/-- The function `setMaxNotes`: it clamps its argument, logs it and returns `true`;
no global is written. -/
def setMaxNotes (maxNotas : Nat) (s : Synth) : Synth × Bool :=
  let _maxNotas := enRango maxNotas 1 MAX_VOICES
  (s, true)

/-- The function `setVolume`. -/
def setVolume (vol : Nat) (s : Synth) : Synth :=
  { s with globalVolume := ((enRango vol 0 100 : Nat) : ℚ) / 100 }

/-- The function `allNoteOff`. -/
def allNoteOff (s : Synth) : Synth :=
  let voices := (List.finRange MAX_VOICES).foldl
    (fun voices i =>
      if (voices i).active then
        Function.update voices i
          { (voices i) with active := false, state := ADSR_IDLE, currentLevel := 0,
                            timeElapsed := 0, note := 0, channel := 0 }
      else voices)
    s.voices
  { s with voices := voices }

/-- The function `alterVolNote`. -/
def alterVolNote (env : Env) (channel velocity : Nat) (s : Synth) : Synth :=
  if channel ≥ MAX_VOICES then s
  else
    let vol : ℚ := (velocity : ℚ) / 127
    match (List.finRange MAX_VOICES).find?
        (fun i => (s.voices i).active && decide ((s.voices i).channel = channel)) with
    | some i =>
      let voice := { (s.voices i) with amplitude := (instrOf env s channel).loudness * vol / 64 }
      { s with voices := Function.update s.voices i voice }
    | none => s

/-- The function `alterPitchNote`. -/
def alterPitchNote (env : Env) (channel cant : Nat) (s : Synth) : Synth :=
  if channel ≥ MAX_VOICES then s
  else
    let pitchOffset : ℚ := ((map (cant : ℤ) 0 127 (-16) 17 : ℤ) : ℚ)
    match (List.finRange MAX_VOICES).find?
        (fun i => (s.voices i).active && decide ((s.voices i).channel = channel)) with
    | some i =>
      let carrierFreq := midi2Freq env
        (toUint8 (((s.voices i).note : ℚ) + (instrOf env s channel).pitchOffset + pitchOffset))
      let voice := { (s.voices i) with
        carrierFreq := carrierFreq,
        modulatorFreq := carrierFreq * (instrOf env s channel).fmFreqMultiplier / 256 }
      { s with voices := Function.update s.voices i voice }
    | none => s

/-- The function `setInstrument`. -/
def setInstrument (channel instrument : Nat) (s : Synth) : Synth :=
  if channel < MAX_VOICES ∧ instrument < NUM_INSTRUMENTS then
    { s with voiceInstrument := wr s.voiceInstrument channel instrument }
  else s

/-- The function `noteOn`. -/
def noteOn (env : Env) (channel note velocity : Nat) (s : Synth) : Synth :=
  if channel ≥ MAX_VOICES then s
  else
    let voiceIdx := findFreeVoice s
    let instr := instrOf env s channel
    let frequency := midi2Freq env (toUint8 ((note : ℚ) + instr.pitchOffset))
    let voice : FmVoice :=
      { carrierFreq := frequency,
        modulatorFreq := frequency * instr.fmFreqMultiplier / 256,
        modulationIndex :=
          instr.fmAmpStart + (instr.fmAmpEnd - instr.fmAmpStart) * ((velocity : ℚ) / 127),
        amplitude := instr.loudness * ((velocity : ℚ) / 127) / 64,
        phase := 0,
        modPhase := 0,
        currentLevel := 0,
        state := ADSR_ATTACK,
        active := true,
        timeElapsed := 0,
        note := note,
        channel := channel }
    { s with voices := wr s.voices voiceIdx voice }

/-- The function `noteOff`. -/
def noteOff (env : Env) (channel note : Nat) (s : Synth) : Synth :=
  if channel ≥ MAX_VOICES then s
  else
    let voices := (List.finRange MAX_VOICES).foldl
      (fun voices i =>
        if (voices i).active ∧ (voices i).channel = channel ∧ (voices i).note = note then
          if (instrOf env s (voices i).channel).sustain > 0 then
            Function.update voices i { (voices i) with state := ADSR_RELEASE }
          else voices
        else voices)
      s.voices
    { s with voices := voices }

/-! ## Sample generation -/

/-- The body of the loop of `generateSample` for one active voice: the voice after the
tick and its contribution to `mix`. -/
def voiceSample (env : Env) (s : Synth) (v : FmVoice) : FmVoice × ℚ :=
  let v := updateADSR v (instrOf env s v.channel) TIME_STEP
  let modPhase := fmodf (v.modPhase + env.TWO_PI * v.modulatorFreq * TIME_STEP) env.TWO_PI
  let modSignal := v.modulationIndex * rd s.sineTable 0 (sineIndex env modPhase)
  let phase := fmodf (v.phase + env.TWO_PI * (v.carrierFreq + modSignal) * TIME_STEP) env.TWO_PI
  ({ v with modPhase := modPhase, phase := phase },
    v.amplitude * v.currentLevel * rd s.sineTable 0 (sineIndex env phase) * s.globalVolume)

/-- The loop of `generateSample`: the voices after the tick and the value of `mix`. -/
def mixLoop (env : Env) (s : Synth) : (Fin MAX_VOICES → FmVoice) × ℚ :=
  (List.finRange MAX_VOICES).foldl
    (fun acc i =>
      if (acc.1 i).active then
        (Function.update acc.1 i (voiceSample env s (acc.1 i)).1,
          acc.2 + (voiceSample env s (acc.1 i)).2)
      else acc)
    (s.voices, 0)

/-- The function `generateSample`: the globals after the call and the returned sample. -/
def generateSample (env : Env) (s : Synth) : Synth × ℤ :=
  ({ s with voices := (mixLoop env s).1 },
    truncToInt (enRango (mixLoop env s).2 (-1) 1 * 32767))

/-- One sample tick: the effect of `generateSample` on the globals. -/
def tick (env : Env) (s : Synth) : Synth := (generateSample env s).1

/-- The globals after `n` consecutive calls of `generateSample`. -/
def ticks (env : Env) : Nat → Synth → Synth
  | 0, s => s
  | n + 1, s => ticks env n (tick env s)

/-- The globals at program start: zero-initialised arrays, default-initialised voices,
`globalVolume = 1.0f`. -/
def Synth.init : Synth :=
  { voices := fun _ => FmVoice.init, voiceInstrument := fun _ => 0, globalVolume := 1,
    sineTable := fun _ => 0 }

/-- The effect of one call of `generateSample` on a single voice: the loop body when the
voice is active, nothing otherwise. -/
def voiceTick (env : Env) (s : Synth) (v : FmVoice) : FmVoice :=
  if v.active then (voiceSample env s v).1 else v

/-- The envelope of a sounding voice: it is active, in envelope state `st`, at level
`lvl`, with `timeElapsed = te`, on channel `ch`. -/
def Sounding (v : FmVoice) (st : Nat) (lvl te : ℚ) (ch : Nat) : Prop :=
  v.active = true ∧ v.state = st ∧ v.currentLevel = lvl ∧ v.timeElapsed = te ∧ v.channel = ch

/-- An environment for closed instances: the bank of the source, `TWO_PI` to fifteen
decimals, and the first terms of the series of `expf` and `sinf` in their place. -/
def sampleEnv : Env :=
  { expf := fun x => 1 + x + x ^ 2 / 2,
    sinf := fun x => x - x ^ 3 / 6,
    TWO_PI := 6.283185307179586,
    instruments := instruments }

/-- The pool after the same note is struck twice on channel 0 from program start. -/
def twoSameNotes : Synth :=
  noteOn sampleEnv 0 60 127 (noteOn sampleEnv 0 60 127 Synth.init)

/-- The pool after a note is struck on channel 0 mapped to instrument 1, whose sustain
is zero. -/
def oneShotNote : Synth :=
  noteOn sampleEnv 0 60 127 (setInstrument 0 1 Synth.init)

/-- Eight notes struck in a row from program start, with channel 1 mapped to instrument 5
and the other channels to instrument 0: note 60 on channel 0 first, note 61 on channel 1
second, then notes 62 to 67 on channel 0. -/
def eightNotes : Synth :=
  noteOn sampleEnv 0 67 127 (noteOn sampleEnv 0 66 127 (noteOn sampleEnv 0 65 127
    (noteOn sampleEnv 0 64 127 (noteOn sampleEnv 0 63 127 (noteOn sampleEnv 0 62 127
      (noteOn sampleEnv 1 61 127 (noteOn sampleEnv 0 60 127
        (setInstrument 1 5 Synth.init))))))))

/-- A sine table for closed instances: Bhaskara's rational approximation of
`sin (2π i / 2048)`, which is exact at the quarter points and within `[-1, 1]`. -/
def approxSineTable : Fin SINE_TABLE_SIZE → ℚ := fun i =>
  if i.val ≤ 1024 then
    16 * ((i.val : ℚ) / 1024) * (1 - (i.val : ℚ) / 1024)
      / (5 - 4 * ((i.val : ℚ) / 1024) * (1 - (i.val : ℚ) / 1024))
  else
    -(16 * ((i.val : ℚ) / 1024 - 1) * (2 - (i.val : ℚ) / 1024)
      / (5 - 4 * ((i.val : ℚ) / 1024 - 1) * (2 - (i.val : ℚ) / 1024)))

/-- The pool with one voice as `noteOn(0, 0, 127)` writes it on instrument 0 (carrier and
modulator at `midi2Freq(0)`, modulation index 51.2), the carrier phase at 0 and the
modulator three quarters through its cycle; the sine table is `approxSineTable`. -/
def lowNote : Synth :=
  { voices := Function.update
      (noteOn sampleEnv 0 0 127 Synth.init).voices 0
      { ((noteOn sampleEnv 0 0 127 Synth.init).voices 0) with
          modPhase := 3 / 4 * sampleEnv.TWO_PI },
    voiceInstrument := Synth.init.voiceInstrument,
    globalVolume := 1,
    sineTable := approxSineTable }

/-! ## Buffer packing -/

/-- The expression `((uint32_t)sample << 16) | (uint16_t)sample` of `synthProcess`, as the
value of the resulting `uint32_t`. -/
def stereoWord (sample : ℤ) : Nat :=
  (((sample % 4294967296).toNat <<< 16) % 4294967296) ||| (sample % 65536).toNat

/-- One pass of the `for` loop of `synthProcess`: `SAMPLE_BUFFER_SIZE` calls of
`generateSample`, each packed into `sampleBuf[i]`; the globals afterwards and the buffer,
first sample first. -/
def fillBuffer (env : Env) (s : Synth) : Synth × List Nat :=
  (List.range SAMPLE_BUFFER_SIZE).foldl
    (fun acc _ =>
      ((generateSample env acc.1).1, acc.2 ++ [stereoWord (generateSample env acc.1).2]))
    (s, [])

/-! ## Runs of the program -/

/-- The calls that change or read the globals: the control functions, `initSineTable` and
`generateSample`. -/
inductive Op where
  | setMaxNotes (maxNotas : Nat)
  | setVolume (vol : Nat)
  | allNoteOff
  | alterVolNote (channel velocity : Nat)
  | alterPitchNote (channel cant : Nat)
  | setInstrument (channel instrument : Nat)
  | noteOn (channel note velocity : Nat)
  | noteOff (channel note : Nat)
  | initSineTable
  | generateSample
deriving DecidableEq

/-- The globals after one call. -/
def Op.apply (env : Env) : Op → Synth → Synth
  | Op.setMaxNotes maxNotas, s => (MiniFmSynth.setMaxNotes maxNotas s).1
  | Op.setVolume vol, s => MiniFmSynth.setVolume vol s
  | Op.allNoteOff, s => MiniFmSynth.allNoteOff s
  | Op.alterVolNote channel velocity, s => MiniFmSynth.alterVolNote env channel velocity s
  | Op.alterPitchNote channel cant, s => MiniFmSynth.alterPitchNote env channel cant s
  | Op.setInstrument channel instrument, s => MiniFmSynth.setInstrument channel instrument s
  | Op.noteOn channel note velocity, s => MiniFmSynth.noteOn env channel note velocity s
  | Op.noteOff channel note, s => MiniFmSynth.noteOff env channel note s
  | Op.initSineTable, s => MiniFmSynth.initSineTable env s
  | Op.generateSample, s => tick env s

/-- The globals after a sequence of calls, first call first. -/
def run (env : Env) (ops : List Op) (s : Synth) : Synth :=
  ops.foldl (fun t op => op.apply env t) s

/-- A voice whose channel is a valid index and which, when inactive, is Idle at level 0. -/
def FmVoice.Ok (v : FmVoice) : Prop :=
  v.channel < MAX_VOICES ∧ (v.active = false → v.state = ADSR_IDLE ∧ v.currentLevel = 0)

/-- Globals whose channel-to-instrument map holds valid instrument indices and whose
voices are all `Ok`. -/
def Synth.Ok (s : Synth) : Prop :=
  (∀ c, s.voiceInstrument c < NUM_INSTRUMENTS) ∧ ∀ i, (s.voices i).Ok

/-- The envelope level of the voice is in `[0, 1]`. -/
def FmVoice.LevelOk (v : FmVoice) : Prop := 0 ≤ v.currentLevel ∧ v.currentLevel ≤ 1

/-- The call is a `setVolume`. -/
def Op.isSetVolume : Op → Bool
  | Op.setVolume _ => true
  | _ => false

/-- The conditions the specification puts on an instrument: `sustain` in `[0, 1]` and
positive attack, decay and release times. -/
def Instrument.Valid (instr : Instrument) : Prop :=
  0 ≤ instr.sustain ∧ instr.sustain ≤ 1 ∧ 0 < instr.attack ∧ 0 < instr.decay ∧
    0 < instr.release

/-- `midi2Freq` with the arithmetic read in a field `K` and `expf` as a parameter; over
`ℚ` with `env.expf` it is `midi2Freq env`. -/
def midi2FreqOver {K : Type} [Field K] (expf : K → K) (midiNote : Nat) : K :=
  8.17579891 * expf (0.05776226 * (midiNote : K))

/-! ## Reference definitions that follow the specification -/

/-- The allocation policy in the words of the specification: the lowest index of an
inactive voice when there is one, otherwise the lowest index among the voices whose
`timeElapsed` is the maximum over the pool. -/
def findFreeVoiceRef (s : Synth) : Nat :=
  match Fin.find (fun i => (s.voices i).active = false) with
  | some i => i.val
  | none =>
    match Fin.find (fun i => ∀ j, (s.voices j).timeElapsed ≤ (s.voices i).timeElapsed) with
    | some i => i.val
    | none => 0

/-! ## Lemmas on the loops -/

theorem find_finRange_some {n : Nat} (p : Fin n → Bool) (i : Fin n)
    (h : (List.finRange n).find? p = some i) : p i = true ∧ ∀ j, j < i → p j = false := by
  rw [List.find?_eq_some] at h
  obtain ⟨hp, as, bs, hl, has⟩ := h
  refine ⟨hp, fun j hj => ?_⟩
  have hpw := List.pairwise_lt_finRange n
  rw [hl, List.pairwise_append] at hpw
  have hj' : j ∈ as ++ i :: bs := hl ▸ List.mem_finRange j
  rcases List.mem_append.1 hj' with h1 | h1
  · simpa using has j h1
  · rcases List.mem_cons.1 h1 with h2 | h2
    · exact absurd hj (h2 ▸ lt_irrefl _)
    · have := (List.pairwise_cons.1 hpw.2.1).1 j h2
      exact absurd hj (not_lt.2 this.le)

theorem find_finRange_none {n : Nat} (p : Fin n → Bool)
    (h : (List.finRange n).find? p = none) : ∀ j, p j = false := by
  intro j
  have := (List.find?_eq_none.1 h) j (List.mem_finRange j)
  simpa using this

/-- The scan for the greatest `timeElapsed` over an increasing list of indices ends on
the first index that carries the maximum. -/
theorem oldest_fold (voices : Fin MAX_VOICES → FmVoice) (l : List (Fin MAX_VOICES))
    (k : Fin MAX_VOICES) (hp : List.Pairwise (fun a b => a < b) (k :: l)) :
    ∃ r, r ∈ k :: l ∧
      l.foldl (fun acc i =>
          if (voices i).timeElapsed > acc.2 then (i.val, (voices i).timeElapsed) else acc)
        (k.val, (voices k).timeElapsed) = (r.val, (voices r).timeElapsed) ∧
      (∀ j ∈ k :: l, (voices j).timeElapsed ≤ (voices r).timeElapsed) ∧
      (∀ j ∈ k :: l, j < r → (voices j).timeElapsed < (voices r).timeElapsed) := by
  induction l generalizing k with
  | nil =>
    refine ⟨k, by simp, rfl, ?_, ?_⟩
    · intro j hj
      simp at hj
      rw [hj]
    · intro j hj hlt
      simp at hj
      exact absurd hlt (hj ▸ lt_irrefl _)
  | cons a l ih =>
    have hka : k < a := (List.pairwise_cons.1 hp).1 a (by simp)
    have hpa : List.Pairwise (fun a b => a < b) (a :: l) := (List.pairwise_cons.1 hp).2
    have hpk : List.Pairwise (fun a b => a < b) (k :: l) := by
      refine List.pairwise_cons.2 ⟨fun x hx => ?_, (List.pairwise_cons.1 hpa).2⟩
      exact (List.pairwise_cons.1 hp).1 x (by simp [hx])
    rw [List.foldl_cons]
    by_cases hgt : (voices a).timeElapsed > (voices k).timeElapsed
    · obtain ⟨r, hr, hfold, hmax, hfirst⟩ := ih a hpa
      refine ⟨r, List.mem_cons_of_mem _ hr, ?_, ?_, ?_⟩
      · simp only [hgt, if_true]
        exact hfold
      · intro j hj
        rcases List.mem_cons.1 hj with h1 | h1
        · rw [h1]
          exact le_trans hgt.le (hmax a (by simp))
        · exact hmax j h1
      · intro j hj hlt
        rcases List.mem_cons.1 hj with h1 | h1
        · rw [h1]
          exact lt_of_lt_of_le hgt (hmax a (by simp))
        · exact hfirst j h1 hlt
    · obtain ⟨r, hr, hfold, hmax, hfirst⟩ := ih k hpk
      have hle : (voices a).timeElapsed ≤ (voices k).timeElapsed := not_lt.1 hgt
      refine ⟨r, ?_, ?_, ?_, ?_⟩
      · rcases List.mem_cons.1 hr with h1 | h1
        · simp [h1]
        · simp [h1]
      · simp only [hgt, if_false]
        exact hfold
      · intro j hj
        rcases List.mem_cons.1 hj with h1 | h1
        · rw [h1]
          exact hmax k (by simp)
        · rcases List.mem_cons.1 h1 with h2 | h2
          · rw [h2]
            exact le_trans hle (hmax k (by simp))
          · exact hmax j (by simp [h2])
      · intro j hj hlt
        rcases List.mem_cons.1 hj with h1 | h1
        · rw [h1] at hlt ⊢
          exact hfirst k (by simp) hlt
        · rcases List.mem_cons.1 h1 with h2 | h2
          · rw [h2] at hlt ⊢
            have hkr : k < r := lt_trans hka hlt
            exact lt_of_le_of_lt hle (hfirst k (by simp) hkr)
          · exact hfirst j (by simp [h2]) hlt

/-- The result of the second loop of `findFreeVoice`: the lowest index that carries the
greatest `timeElapsed` of the pool. -/
theorem oldestScan_spec (voices : Fin MAX_VOICES → FmVoice) :
    ∃ r : Fin MAX_VOICES, (oldestScan voices).1 = r.val ∧
      (∀ j, (voices j).timeElapsed ≤ (voices r).timeElapsed) ∧
      (∀ j, j < r → (voices j).timeElapsed < (voices r).timeElapsed) := by
  have hfr : List.finRange MAX_VOICES = 0 :: (List.finRange MAX_VOICES).tail := by decide
  have hp : List.Pairwise (fun a b => a < b)
      ((0 : Fin MAX_VOICES) :: (List.finRange MAX_VOICES).tail) := by
    rw [← hfr]
    exact List.pairwise_lt_finRange _
  obtain ⟨r, _, hfold, hmax, hfirst⟩ := oldest_fold voices _ 0 hp
  have hmem : ∀ j : Fin MAX_VOICES, j ∈ (0 : Fin MAX_VOICES) :: (List.finRange MAX_VOICES).tail := by
    intro j
    rw [← hfr]
    exact List.mem_finRange j
  refine ⟨r, ?_, fun j => hmax j (hmem j), fun j hj => hfirst j (hmem j) hj⟩
  unfold oldestScan
  have h0 : ((0 : Fin MAX_VOICES) : Nat) = 0 := rfl
  rw [h0] at hfold
  rw [hfold]

/-- What `findFreeVoice` returns, as a voice index. -/
theorem findFreeVoice_char (s : Synth) :
    ∃ r : Fin MAX_VOICES, findFreeVoice s = r.val ∧
      (((s.voices r).active = false ∧ ∀ j, j < r → (s.voices j).active = true) ∨
       ((∀ j, (s.voices j).active = true) ∧
        (∀ j, (s.voices j).timeElapsed ≤ (s.voices r).timeElapsed) ∧
        (∀ j, j < r → (s.voices j).timeElapsed < (s.voices r).timeElapsed))) := by
  unfold findFreeVoice
  cases hf : (List.finRange MAX_VOICES).find? (fun i => !(s.voices i).active) with
  | some i =>
    obtain ⟨h1, h2⟩ := find_finRange_some _ i hf
    refine ⟨i, rfl, Or.inl ⟨by simpa using h1, fun j hj => by simpa using h2 j hj⟩⟩
  | none =>
    have hall := find_finRange_none _ hf
    obtain ⟨r, hr, hmax, hfirst⟩ := oldestScan_spec s.voices
    exact ⟨r, hr, Or.inr ⟨fun j => by simpa using hall j, hmax, hfirst⟩⟩

/-! ## Voice allocation: `findFreeVoice` -/

/-- C1: `findFreeVoice` equals the reference definition on every voice pool, its result
is a valid voice index, and that index is either the lowest inactive voice or, when all
voices are active, the lowest index among the voices of greatest `timeElapsed`. -/
theorem findFreeVoice_eq_ref (s : Synth) :
    findFreeVoice s = findFreeVoiceRef s ∧ findFreeVoice s < MAX_VOICES ∧
    ∃ r : Fin MAX_VOICES, findFreeVoice s = r.val ∧
      (((s.voices r).active = false ∧ ∀ j, j < r → (s.voices j).active = true) ∨
       ((∀ j, (s.voices j).active = true) ∧
        (∀ j, (s.voices j).timeElapsed ≤ (s.voices r).timeElapsed) ∧
        (∀ j, j < r → (s.voices j).timeElapsed < (s.voices r).timeElapsed))) := by
  obtain ⟨r, hr, hchar⟩ := findFreeVoice_char s
  refine ⟨?_, hr ▸ r.isLt, r, hr, hchar⟩
  rw [hr]
  rcases hchar with ⟨hin, hlow⟩ | ⟨hall, hmax, hfirst⟩
  · have hfind : Fin.find (fun i => (s.voices i).active = false) = some r := by
      rw [Fin.find_eq_some_iff]
      refine ⟨hin, fun j hj => ?_⟩
      by_contra hlt
      have := hlow j (not_le.1 hlt)
      rw [hj] at this
      exact Bool.false_ne_true this
    simp only [findFreeVoiceRef, hfind]
  · have hnone : Fin.find (fun i => (s.voices i).active = false) = none := by
      rw [Fin.find_eq_none_iff]
      intro i hi
      rw [hall i] at hi
      exact Bool.false_ne_true hi.symm
    have hfind : Fin.find (fun i => ∀ j, (s.voices j).timeElapsed ≤ (s.voices i).timeElapsed)
        = some r := by
      rw [Fin.find_eq_some_iff]
      refine ⟨hmax, fun j hj => ?_⟩
      by_contra hlt
      exact absurd (hfirst j (not_le.1 hlt)) (not_lt.2 (hj r))
    simp only [findFreeVoiceRef, hnone, hfind]

/-! ## Note on -/

theorem truncToInt_of_nonneg {q : ℚ} (h : 0 ≤ q) : truncToInt q = ⌊q⌋ := by
  simp [truncToInt, h]

/-- Inside `0..255` the conversion to `uint8_t` is the integer part. -/
theorem toUint8_eq_floor {q : ℚ} (h0 : 0 ≤ q) (h1 : q ≤ 255) : toUint8 q = ⌊q⌋₊ := by
  unfold toUint8
  rw [truncToInt_of_nonneg h0]
  have hf0 : (0 : ℤ) ≤ ⌊q⌋ := Int.floor_nonneg.2 h0
  have hf1 : ⌊q⌋ < 256 := by
    rw [Int.floor_lt]
    push_cast
    linarith
  rw [Int.emod_eq_of_lt hf0 hf1, Int.floor_toNat]

/-- C2: on a valid channel `noteOn` rewrites exactly the voice at index `findFreeVoice()`
of the pre-state, with the fields computed from the instrument mapped to the channel;
the other voices, the channel-to-instrument map, the global volume and the sine table are
unchanged; on a fully occupied pool with distinct `timeElapsed` values the rewritten voice
is the one of greatest `timeElapsed`. -/
theorem noteOn_spec (env : Env) (s : Synth) (channel note velocity : Nat)
    (hch : channel < MAX_VOICES)
    (h0 : 0 ≤ (note : ℚ) + (instrOf env s channel).pitchOffset)
    (h1 : (note : ℚ) + (instrOf env s channel).pitchOffset ≤ 255) :
    ∃ r : Fin MAX_VOICES, r.val = findFreeVoice s ∧
      (noteOn env channel note velocity s).voices r =
        { carrierFreq := midi2Freq env ⌊(note : ℚ) + (instrOf env s channel).pitchOffset⌋₊,
          modulatorFreq :=
            midi2Freq env ⌊(note : ℚ) + (instrOf env s channel).pitchOffset⌋₊ *
              (instrOf env s channel).fmFreqMultiplier / 256,
          modulationIndex :=
            (instrOf env s channel).fmAmpStart +
              ((instrOf env s channel).fmAmpEnd - (instrOf env s channel).fmAmpStart) *
                ((velocity : ℚ) / 127),
          amplitude := (instrOf env s channel).loudness * ((velocity : ℚ) / 127) / 64,
          phase := 0,
          modPhase := 0,
          currentLevel := 0,
          state := ADSR_ATTACK,
          active := true,
          timeElapsed := 0,
          note := note,
          channel := channel } ∧
      (∀ j, j ≠ r → (noteOn env channel note velocity s).voices j = s.voices j) ∧
      (noteOn env channel note velocity s).voiceInstrument = s.voiceInstrument ∧
      (noteOn env channel note velocity s).globalVolume = s.globalVolume ∧
      (noteOn env channel note velocity s).sineTable = s.sineTable ∧
      ((∀ j, (s.voices j).active = true) →
        (∀ i j, i ≠ j → (s.voices i).timeElapsed ≠ (s.voices j).timeElapsed) →
        ∀ j, j ≠ r → (s.voices j).timeElapsed < (s.voices r).timeElapsed) := by
  obtain ⟨r, hr, hchar⟩ := findFreeVoice_char s
  have hge : ¬ channel ≥ MAX_VOICES := not_le.2 hch
  refine ⟨r, hr.symm, ?_, ?_, ?_, ?_, ?_, ?_⟩
  · simp only [noteOn, hge, if_false, wr, hr, if_true, toUint8_eq_floor h0 h1]
  · intro j hj
    have hne : ¬ j.val = findFreeVoice s := by
      rw [hr]
      exact fun h => hj (Fin.ext h)
    simp only [noteOn, hge, if_false, wr, hne]
  · simp only [noteOn, hge, if_false]
  · simp only [noteOn, hge, if_false]
  · simp only [noteOn, hge, if_false]
  · intro hall hdist j hj
    rcases hchar with ⟨hin, _⟩ | ⟨_, hmax, _⟩
    · rw [hall r] at hin
      exact absurd hin (by decide)
    · exact lt_of_le_of_ne (hmax j) (hdist j r hj)

theorem instrOf_sampleEnv_init (channel : Nat) :
    instrOf sampleEnv Synth.init channel = instruments 0 := by
  unfold instrOf rd
  by_cases h : channel < MAX_VOICES
  · simp [h, Synth.init, sampleEnv]
  · simp [h, sampleEnv]

/-- Instance of `noteOn_spec`: note 69 at velocity 127 on channel 0 from program start. -/
theorem noteOn_spec_witness :
    (0 : Nat) < MAX_VOICES ∧
    (0 : ℚ) ≤ ((69 : Nat) : ℚ) + (instrOf sampleEnv Synth.init 0).pitchOffset ∧
    ((69 : Nat) : ℚ) + (instrOf sampleEnv Synth.init 0).pitchOffset ≤ 255 ∧
    ∃ r : Fin MAX_VOICES, r.val = findFreeVoice Synth.init ∧
      ((noteOn sampleEnv 0 69 127 Synth.init).voices r).state = ADSR_ATTACK ∧
      ((noteOn sampleEnv 0 69 127 Synth.init).voices r).carrierFreq = midi2Freq sampleEnv 69 := by
  have hp : (instrOf sampleEnv Synth.init 0).pitchOffset = 0 := by
    rw [instrOf_sampleEnv_init]
    rfl
  have h0 : (0 : ℚ) ≤ ((69 : Nat) : ℚ) + (instrOf sampleEnv Synth.init 0).pitchOffset := by
    rw [hp]
    norm_num
  have h1 : ((69 : Nat) : ℚ) + (instrOf sampleEnv Synth.init 0).pitchOffset ≤ 255 := by
    rw [hp]
    norm_num
  obtain ⟨r, hr, hv, _⟩ := noteOn_spec sampleEnv Synth.init 0 69 127 (by decide) h0 h1
  refine ⟨by decide, h0, h1, r, hr, ?_, ?_⟩
  · rw [hv]
  · rw [hv, hp]
    norm_num

/-! ## Loops over the voice array -/

/-- A loop that rewrites `voices[i]` from `voices[i]` alone, run over distinct indices,
acts on every listed voice independently. -/
theorem foldl_pointwise {n : Nat} {α : Type} (g : α → α) (l : List (Fin n)) (hnd : l.Nodup)
    (vs : Fin n → α) (i : Fin n) :
    (l.foldl (fun w k => Function.update w k (g (w k))) vs) i
      = if i ∈ l then g (vs i) else vs i := by
  induction l generalizing vs with
  | nil => simp
  | cons a l ih =>
    have ha : a ∉ l := (List.nodup_cons.1 hnd).1
    rw [List.foldl_cons, ih (List.nodup_cons.1 hnd).2]
    by_cases hi : i = a
    · subst hi
      simp [ha]
    · simp [hi, Function.update_noteq hi]

theorem foldl_finRange_pointwise {n : Nat} {α : Type} (g : α → α) (vs : Fin n → α)
    (i : Fin n) :
    ((List.finRange n).foldl (fun w k => Function.update w k (g (w k))) vs) i = g (vs i) := by
  rw [foldl_pointwise g _ (List.nodup_finRange n), if_pos (List.mem_finRange i)]

theorem synth_eq_of_voices (s : Synth) (voices : Fin MAX_VOICES → FmVoice)
    (h : ∀ i, voices i = s.voices i) : ({ s with voices := voices } : Synth) = s := by
  have : voices = s.voices := funext h
  rw [this]

/-- The voices after `allNoteOff`. -/
theorem allNoteOff_voices (s : Synth) (i : Fin MAX_VOICES) :
    (allNoteOff s).voices i =
      if (s.voices i).active then
        { (s.voices i) with active := false, state := ADSR_IDLE, currentLevel := 0,
                            timeElapsed := 0, note := 0, channel := 0 }
      else s.voices i := by
  have hfun : (fun (voices : Fin MAX_VOICES → FmVoice) (i : Fin MAX_VOICES) =>
        if (voices i).active then
          Function.update voices i
            { (voices i) with active := false, state := ADSR_IDLE, currentLevel := 0,
                              timeElapsed := 0, note := 0, channel := 0 }
        else voices)
      = (fun w k => Function.update w k
          ((fun v : FmVoice => if v.active then
              { v with active := false, state := ADSR_IDLE, currentLevel := 0,
                       timeElapsed := 0, note := 0, channel := 0 } else v) (w k))) := by
    funext w k
    by_cases h : (w k).active = true
    · simp [h]
    · simp [h]
  simp only [allNoteOff]
  rw [hfun]
  exact foldl_finRange_pointwise
    (fun v : FmVoice => if v.active then
      { v with active := false, state := ADSR_IDLE, currentLevel := 0,
               timeElapsed := 0, note := 0, channel := 0 } else v) s.voices i

/-- The voices after `noteOff` on a valid channel. -/
theorem noteOff_voices (env : Env) (s : Synth) (channel note : Nat)
    (hch : channel < MAX_VOICES) (i : Fin MAX_VOICES) :
    (noteOff env channel note s).voices i =
      if (s.voices i).active = true ∧ (s.voices i).channel = channel ∧
          (s.voices i).note = note ∧ (instrOf env s channel).sustain > 0 then
        { (s.voices i) with state := ADSR_RELEASE }
      else s.voices i := by
  have hge : ¬ channel ≥ MAX_VOICES := not_le.2 hch
  have hfun : (fun (voices : Fin MAX_VOICES → FmVoice) (i : Fin MAX_VOICES) =>
        if (voices i).active ∧ (voices i).channel = channel ∧ (voices i).note = note then
          if (instrOf env s (voices i).channel).sustain > 0 then
            Function.update voices i { (voices i) with state := ADSR_RELEASE }
          else voices
        else voices)
      = (fun w k => Function.update w k
          ((fun v : FmVoice =>
              if v.active = true ∧ v.channel = channel ∧ v.note = note ∧
                  (instrOf env s channel).sustain > 0 then
                { v with state := ADSR_RELEASE } else v) (w k))) := by
    funext w k
    by_cases h : (w k).active = true ∧ (w k).channel = channel ∧ (w k).note = note
    · by_cases h2 : (instrOf env s channel).sustain > 0
      · have h3 : (instrOf env s (w k).channel).sustain > 0 := by rw [h.2.1]; exact h2
        simp only [h, h3, h2, and_self, if_true]
      · have h3 : ¬ (instrOf env s (w k).channel).sustain > 0 := by rw [h.2.1]; exact h2
        simp only [h, h3, h2, and_self, and_false, if_true, if_false]
        simp
    · have h4 : ¬ ((w k).active = true ∧ (w k).channel = channel ∧ (w k).note = note ∧
          (instrOf env s channel).sustain > 0) := fun hh => h ⟨hh.1, hh.2.1, hh.2.2.1⟩
      simp only [h, h4, if_false]
      simp
  simp only [noteOff, hge, if_false]
  rw [hfun]
  exact foldl_finRange_pointwise
    (fun v : FmVoice =>
      if v.active = true ∧ v.channel = channel ∧ v.note = note ∧
          (instrOf env s channel).sustain > 0 then
        { v with state := ADSR_RELEASE } else v) s.voices i

/-! ## Out-of-range indices -/

/-- C3: `noteOn`, `noteOff`, `alterVolNote` and `alterPitchNote` with a channel outside
the voice pool, and `setInstrument` with a channel outside the pool or an instrument
outside the bank, leave the whole state unchanged; `setInstrument` with both indices in
range changes only the map entry of that channel. -/
theorem out_of_range_ignored (env : Env) (s : Synth) :
    (∀ channel note velocity, MAX_VOICES ≤ channel →
      noteOn env channel note velocity s = s) ∧
    (∀ channel note, MAX_VOICES ≤ channel → noteOff env channel note s = s) ∧
    (∀ channel velocity, MAX_VOICES ≤ channel → alterVolNote env channel velocity s = s) ∧
    (∀ channel cant, MAX_VOICES ≤ channel → alterPitchNote env channel cant s = s) ∧
    (∀ channel instrument, MAX_VOICES ≤ channel ∨ NUM_INSTRUMENTS ≤ instrument →
      setInstrument channel instrument s = s) ∧
    (∀ channel instrument, channel < MAX_VOICES → instrument < NUM_INSTRUMENTS →
      (setInstrument channel instrument s).voices = s.voices ∧
      (setInstrument channel instrument s).globalVolume = s.globalVolume ∧
      (setInstrument channel instrument s).sineTable = s.sineTable ∧
      ∀ c : Fin MAX_VOICES,
        (setInstrument channel instrument s).voiceInstrument c =
          if c.val = channel then instrument else s.voiceInstrument c) := by
  refine ⟨?_, ?_, ?_, ?_, ?_, ?_⟩
  · intro channel note velocity h
    simp only [noteOn, ge_iff_le, h, if_true]
  · intro channel note h
    simp only [noteOff, ge_iff_le, h, if_true]
  · intro channel velocity h
    simp only [alterVolNote, ge_iff_le, h, if_true]
  · intro channel cant h
    simp only [alterPitchNote, ge_iff_le, h, if_true]
  · intro channel instrument h
    have hn : ¬ (channel < MAX_VOICES ∧ instrument < NUM_INSTRUMENTS) := by
      rintro ⟨h1, h2⟩
      rcases h with h | h
      · exact absurd h1 (not_lt.2 h)
      · exact absurd h2 (not_lt.2 h)
    simp only [setInstrument, hn, if_false]
  · intro channel instrument h1 h2
    have hy : channel < MAX_VOICES ∧ instrument < NUM_INSTRUMENTS := ⟨h1, h2⟩
    simp only [setInstrument, hy, and_self, if_true, wr, true_and]
    intro c
    trivial

/-! ## Note off -/

/-- C4 (as the code behaves): on a valid channel whose instrument has `sustain > 0`,
`noteOff` moves to Release every active voice whose channel and note both match, changing
only its `state`, and leaves every other voice, the channel-to-instrument map, the global
volume and the sine table unchanged. -/
theorem noteOff_releases_every_match (env : Env) (s : Synth) (channel note : Nat)
    (hch : channel < MAX_VOICES) (hsus : (instrOf env s channel).sustain > 0) :
    (∀ i, (s.voices i).active = true → (s.voices i).channel = channel →
        (s.voices i).note = note →
        (noteOff env channel note s).voices i = { (s.voices i) with state := ADSR_RELEASE }) ∧
    (∀ i, ¬ ((s.voices i).active = true ∧ (s.voices i).channel = channel ∧
          (s.voices i).note = note) →
        (noteOff env channel note s).voices i = s.voices i) ∧
    (noteOff env channel note s).voiceInstrument = s.voiceInstrument ∧
    (noteOff env channel note s).globalVolume = s.globalVolume ∧
    (noteOff env channel note s).sineTable = s.sineTable := by
  have hge : ¬ channel ≥ MAX_VOICES := not_le.2 hch
  refine ⟨?_, ?_, ?_, ?_, ?_⟩
  · intro i ha hc hn
    rw [noteOff_voices env s channel note hch i, if_pos ⟨ha, hc, hn, hsus⟩]
  · intro i hne
    rw [noteOff_voices env s channel note hch i, if_neg]
    exact fun hh => hne ⟨hh.1, hh.2.1, hh.2.2.1⟩
  · simp only [noteOff, hge, if_false]
  · simp only [noteOff, hge, if_false]
  · simp only [noteOff, hge, if_false]

/-- C5: on a valid channel whose instrument has `sustain == 0`, `noteOff` leaves the
state as it was. -/
theorem noteOff_zero_sustain (env : Env) (s : Synth) (channel note : Nat)
    (hch : channel < MAX_VOICES) (hsus : (instrOf env s channel).sustain = 0) :
    noteOff env channel note s = s := by
  have hge : ¬ channel ≥ MAX_VOICES := not_le.2 hch
  have hv : ∀ i, (noteOff env channel note s).voices i = s.voices i := by
    intro i
    rw [noteOff_voices env s channel note hch i, if_neg]
    rintro ⟨_, _, _, h⟩
    rw [hsus] at h
    exact lt_irrefl _ h
  have hs : noteOff env channel note s
      = { s with voices := (noteOff env channel note s).voices } := by
    simp only [noteOff, hge, if_false]
  rw [hs]
  exact synth_eq_of_voices s _ hv

/-! ## All notes off -/

/-- C10: `allNoteOff` is idempotent. -/
theorem allNoteOff_idempotent (s : Synth) : allNoteOff (allNoteOff s) = allNoteOff s := by
  have hv : ∀ i, (allNoteOff (allNoteOff s)).voices i = (allNoteOff s).voices i := by
    intro i
    rw [allNoteOff_voices (allNoteOff s) i, if_neg]
    rw [allNoteOff_voices s i]
    by_cases h : (s.voices i).active = true
    · simp [h]
    · simp [h]
  have hs : allNoteOff (allNoteOff s)
      = { (allNoteOff s) with voices := (allNoteOff (allNoteOff s)).voices } := by
    simp only [allNoteOff]
  rw [hs]
  exact synth_eq_of_voices (allNoteOff s) _ hv

/-! ## Closed instances for note off -/

theorem instrOf_twoSameNotes : instrOf sampleEnv twoSameNotes 0 = instruments 0 := rfl

theorem instrOf_oneShotNote : instrOf sampleEnv oneShotNote 0 = instruments 1 := rfl

theorem twoSameNotes_sustain : (instrOf sampleEnv twoSameNotes 0).sustain > 0 := by
  rw [instrOf_twoSameNotes]
  simp only [instruments, instrumentRows, List.getD_cons_zero]
  norm_num

theorem oneShotNote_sustain : (instrOf sampleEnv oneShotNote 0).sustain = 0 := by
  rw [instrOf_oneShotNote]
  simp only [instruments, instrumentRows, List.getD_cons_succ, List.getD_cons_zero]
  norm_num

/-- C4 fails as stated: after the same note is struck twice on channel 0 (instrument 0,
sustain 0.6), voices 0 and 1 are both active with channel 0 and note 60; `noteOff(0, 60)`
moves voice 1, which is not the first match, from Attack to Release as well. -/
theorem noteOff_first_only_counterexample :
    (instrOf sampleEnv twoSameNotes 0).sustain > 0 ∧
    ((twoSameNotes.voices 0).active = true ∧ (twoSameNotes.voices 0).channel = 0 ∧
      (twoSameNotes.voices 0).note = 60) ∧
    ((twoSameNotes.voices 1).active = true ∧ (twoSameNotes.voices 1).channel = 0 ∧
      (twoSameNotes.voices 1).note = 60) ∧
    (twoSameNotes.voices 1).state = ADSR_ATTACK ∧
    ((noteOff sampleEnv 0 60 twoSameNotes).voices 0).state = ADSR_RELEASE ∧
    ((noteOff sampleEnv 0 60 twoSameNotes).voices 1).state = ADSR_RELEASE ∧
    (noteOff sampleEnv 0 60 twoSameNotes).voices 1 ≠ twoSameNotes.voices 1 := by
  have h0 : (twoSameNotes.voices 0).active = true ∧ (twoSameNotes.voices 0).channel = 0 ∧
      (twoSameNotes.voices 0).note = 60 := by decide
  have h1 : (twoSameNotes.voices 1).active = true ∧ (twoSameNotes.voices 1).channel = 0 ∧
      (twoSameNotes.voices 1).note = 60 := by decide
  have hs1 : (twoSameNotes.voices 1).state = ADSR_ATTACK := by decide
  have hr0 : ((noteOff sampleEnv 0 60 twoSameNotes).voices 0).state = ADSR_RELEASE := by
    rw [noteOff_voices sampleEnv twoSameNotes 0 60 (by decide) 0,
      if_pos ⟨h0.1, h0.2.1, h0.2.2, twoSameNotes_sustain⟩]
  have hr1 : ((noteOff sampleEnv 0 60 twoSameNotes).voices 1).state = ADSR_RELEASE := by
    rw [noteOff_voices sampleEnv twoSameNotes 0 60 (by decide) 1,
      if_pos ⟨h1.1, h1.2.1, h1.2.2, twoSameNotes_sustain⟩]
  refine ⟨twoSameNotes_sustain, h0, h1, hs1, hr0, hr1, ?_⟩
  intro heq
  rw [heq, hs1] at hr1
  exact absurd hr1 (by decide)

/-- Instance of `noteOff_releases_every_match`: the same note struck twice on channel 0. -/
theorem noteOff_releases_every_match_witness :
    (0 : Nat) < MAX_VOICES ∧ (instrOf sampleEnv twoSameNotes 0).sustain > 0 ∧
    (noteOff sampleEnv 0 60 twoSameNotes).voices 1
      = { (twoSameNotes.voices 1) with state := ADSR_RELEASE } ∧
    (noteOff sampleEnv 0 60 twoSameNotes).voices 2 = twoSameNotes.voices 2 :=
  ⟨by decide, twoSameNotes_sustain,
    (noteOff_releases_every_match sampleEnv twoSameNotes 0 60 (by decide)
      twoSameNotes_sustain).1 1 (by decide) (by decide) (by decide),
    (noteOff_releases_every_match sampleEnv twoSameNotes 0 60 (by decide)
      twoSameNotes_sustain).2.1 2 (by decide)⟩

/-- Instance of `noteOff_zero_sustain`: a sounding note on instrument 1, whose sustain is
zero. -/
theorem noteOff_zero_sustain_witness :
    (0 : Nat) < MAX_VOICES ∧ (instrOf sampleEnv oneShotNote 0).sustain = 0 ∧
    ((oneShotNote.voices 0).active = true ∧ (oneShotNote.voices 0).channel = 0 ∧
      (oneShotNote.voices 0).note = 60) ∧
    noteOff sampleEnv 0 60 oneShotNote = oneShotNote :=
  ⟨by decide, oneShotNote_sustain, by decide,
    noteOff_zero_sustain sampleEnv oneShotNote 0 60 (by decide) oneShotNote_sustain⟩

/-! ## One sample tick, voice by voice -/

theorem mixLoop_fold_fst (env : Env) (s : Synth) (l : List (Fin MAX_VOICES))
    (vs : Fin MAX_VOICES → FmVoice) (m : ℚ) :
    (l.foldl
      (fun (acc : (Fin MAX_VOICES → FmVoice) × ℚ) i =>
        if (acc.1 i).active then
          (Function.update acc.1 i (voiceSample env s (acc.1 i)).1,
            acc.2 + (voiceSample env s (acc.1 i)).2)
        else acc)
      (vs, m)).1
    = l.foldl (fun w k => Function.update w k (voiceTick env s (w k))) vs := by
  induction l generalizing vs m with
  | nil => rfl
  | cons a l ih =>
    rw [List.foldl_cons, List.foldl_cons]
    by_cases h : (vs a).active = true
    · simp only [h, if_true, voiceTick]
      exact ih _ _
    · have h' : (vs a).active = false := by simpa using h
      simp only [h', Bool.false_eq_true, if_false, voiceTick, Function.update_eq_self]
      exact ih _ _

/-- The voices after one call of `generateSample`: every voice advances on its own. -/
theorem tick_voices (env : Env) (s : Synth) (i : Fin MAX_VOICES) :
    (tick env s).voices i = voiceTick env s (s.voices i) := by
  simp only [tick, generateSample, mixLoop]
  rw [mixLoop_fold_fst]
  exact foldl_finRange_pointwise (voiceTick env s) s.voices i

theorem tick_voiceInstrument (env : Env) (s : Synth) :
    (tick env s).voiceInstrument = s.voiceInstrument := rfl

theorem tick_globalVolume (env : Env) (s : Synth) :
    (tick env s).globalVolume = s.globalVolume := rfl

theorem tick_sineTable (env : Env) (s : Synth) :
    (tick env s).sineTable = s.sineTable := rfl

theorem voiceTick_congr (env : Env) (s t : Synth) (h1 : t.voiceInstrument = s.voiceInstrument)
    (h2 : t.globalVolume = s.globalVolume) (h3 : t.sineTable = s.sineTable) :
    voiceTick env t = voiceTick env s := by
  funext v
  simp only [voiceTick, voiceSample, instrOf, h1, h2, h3]

/-- The voices after `n` calls of `generateSample`. -/
theorem ticks_voices (env : Env) (n : Nat) (s : Synth) (i : Fin MAX_VOICES) :
    (ticks env n s).voices i = (voiceTick env s)^[n] (s.voices i) := by
  induction n generalizing s with
  | zero => rfl
  | succ n ih =>
    rw [ticks, ih (tick env s), tick_voices,
      voiceTick_congr env s (tick env s) rfl rfl rfl, Function.iterate_succ_apply]

theorem ticks_voiceInstrument (env : Env) (n : Nat) (s : Synth) :
    (ticks env n s).voiceInstrument = s.voiceInstrument := by
  induction n generalizing s with
  | zero => rfl
  | succ n ih => rw [ticks, ih (tick env s), tick_voiceInstrument]

theorem ticks_globalVolume (env : Env) (n : Nat) (s : Synth) :
    (ticks env n s).globalVolume = s.globalVolume := by
  induction n generalizing s with
  | zero => rfl
  | succ n ih => rw [ticks, ih (tick env s), tick_globalVolume]

/-! ## The envelope of one voice, tick by tick -/

theorem voiceTick_inactive (env : Env) (s : Synth) (v : FmVoice) (h : v.active = false) :
    voiceTick env s v = v := by
  simp [voiceTick, h]

theorem attack_step (env : Env) (s : Synth) (v : FmVoice) (x te : ℚ) (ch : Nat)
    (h : Sounding v ADSR_ATTACK x te ch) :
    (x + TIME_STEP / (instrOf env s ch).attack < 1 →
      Sounding (voiceTick env s v) ADSR_ATTACK (x + TIME_STEP / (instrOf env s ch).attack) te ch) ∧
    (1 ≤ x + TIME_STEP / (instrOf env s ch).attack →
      Sounding (voiceTick env s v) ADSR_DECAY 1 te ch) := by
  obtain ⟨ha, hs, hl, ht, hc⟩ := h
  constructor
  · intro hlt
    have hn : ¬ (x + TIME_STEP / (instrOf env s ch).attack ≥ 1) := not_le.2 hlt
    simp [Sounding, voiceTick, voiceSample, updateADSR, ha, hs, hl, ht, hc, hn]
  · intro hge
    simp [Sounding, voiceTick, voiceSample, updateADSR, ha, hs, hl, ht, hc, hge]

theorem decay_step (env : Env) (s : Synth) (v : FmVoice) (x te : ℚ) (ch : Nat)
    (h : Sounding v ADSR_DECAY x te ch) :
    ((instrOf env s ch).sustain <
        x - TIME_STEP / (instrOf env s ch).decay * (1 - (instrOf env s ch).sustain) →
      Sounding (voiceTick env s v) ADSR_DECAY
        (x - TIME_STEP / (instrOf env s ch).decay * (1 - (instrOf env s ch).sustain)) te ch) ∧
    (x - TIME_STEP / (instrOf env s ch).decay * (1 - (instrOf env s ch).sustain)
        ≤ (instrOf env s ch).sustain →
      ((instrOf env s ch).sustain = 0 →
        Sounding (voiceTick env s v) ADSR_RELEASE (instrOf env s ch).sustain te ch) ∧
      ((instrOf env s ch).sustain ≠ 0 →
        Sounding (voiceTick env s v) ADSR_SUSTAIN (instrOf env s ch).sustain te ch)) := by
  obtain ⟨ha, hs, hl, ht, hc⟩ := h
  refine ⟨?_, ?_⟩
  · intro hlt
    have hn : ¬ (x - TIME_STEP / (instrOf env s ch).decay * (1 - (instrOf env s ch).sustain)
        ≤ (instrOf env s ch).sustain) := not_le.2 hlt
    simp [Sounding, voiceTick, voiceSample, updateADSR, ha, hs, hl, ht, hc, hn]
  · intro hle
    refine ⟨?_, ?_⟩
    · intro h0
      simp only [Sounding, voiceTick, voiceSample, updateADSR, ha, hs, hl, ht, hc, hle, if_true]
      simp [h0]
    · intro h0
      simp [Sounding, voiceTick, voiceSample, updateADSR, ha, hs, hl, ht, hc, hle, h0]

theorem sustain_step (env : Env) (s : Synth) (v : FmVoice) (x te : ℚ) (ch : Nat)
    (h : Sounding v ADSR_SUSTAIN x te ch) :
    Sounding (voiceTick env s v) ADSR_SUSTAIN (instrOf env s ch).sustain (te + TIME_STEP) ch := by
  obtain ⟨ha, hs, hl, ht, hc⟩ := h
  simp [Sounding, voiceTick, voiceSample, updateADSR, ha, hs, ht, hc]

/-- During Attack the level climbs by `TIME_STEP / attack` a tick while it stays below 1. -/
theorem attack_iter (env : Env) (s : Synth) (v : FmVoice) (x te : ℚ) (ch : Nat)
    (h : Sounding v ADSR_ATTACK x te ch) (hc : 0 ≤ TIME_STEP / (instrOf env s ch).attack)
    (k : Nat) (hk : x + (k : ℚ) * (TIME_STEP / (instrOf env s ch).attack) < 1) :
    Sounding ((voiceTick env s)^[k] v) ADSR_ATTACK
      (x + (k : ℚ) * (TIME_STEP / (instrOf env s ch).attack)) te ch := by
  induction k with
  | zero => simpa using h
  | succ k ih =>
    have hk' : x + (k : ℚ) * (TIME_STEP / (instrOf env s ch).attack) < 1 := by
      push_cast at hk
      linarith
    have heq : x + ((k + 1 : ℕ) : ℚ) * (TIME_STEP / (instrOf env s ch).attack)
        = x + (k : ℚ) * (TIME_STEP / (instrOf env s ch).attack)
          + TIME_STEP / (instrOf env s ch).attack := by
      push_cast
      ring
    rw [Function.iterate_succ_apply', heq]
    rw [heq] at hk
    exact (attack_step env s _ _ te ch (ih hk')).1 hk

/-- The tick on which the Attack ramp reaches 1 moves the voice to Decay at level 1. -/
theorem attack_end (env : Env) (s : Synth) (v : FmVoice) (x te : ℚ) (ch : Nat)
    (h : Sounding v ADSR_ATTACK x te ch) (hc : 0 ≤ TIME_STEP / (instrOf env s ch).attack)
    (k : Nat) (hk : x + (k : ℚ) * (TIME_STEP / (instrOf env s ch).attack) < 1)
    (hk1 : 1 ≤ x + ((k + 1 : ℕ) : ℚ) * (TIME_STEP / (instrOf env s ch).attack)) :
    Sounding ((voiceTick env s)^[k + 1] v) ADSR_DECAY 1 te ch := by
  have heq : x + ((k + 1 : ℕ) : ℚ) * (TIME_STEP / (instrOf env s ch).attack)
      = x + (k : ℚ) * (TIME_STEP / (instrOf env s ch).attack)
        + TIME_STEP / (instrOf env s ch).attack := by
    push_cast
    ring
  rw [Function.iterate_succ_apply']
  rw [heq] at hk1
  exact (attack_step env s _ _ te ch (attack_iter env s v x te ch h hc k hk)).2 hk1

/-- During Decay the level falls by `TIME_STEP / decay * (1 - sustain)` a tick while it
stays above the sustain level. -/
theorem decay_iter (env : Env) (s : Synth) (v : FmVoice) (x te : ℚ) (ch : Nat)
    (h : Sounding v ADSR_DECAY x te ch)
    (hc : 0 ≤ TIME_STEP / (instrOf env s ch).decay * (1 - (instrOf env s ch).sustain))
    (k : Nat)
    (hk : (instrOf env s ch).sustain <
      x - (k : ℚ) * (TIME_STEP / (instrOf env s ch).decay * (1 - (instrOf env s ch).sustain))) :
    Sounding ((voiceTick env s)^[k] v) ADSR_DECAY
      (x - (k : ℚ) * (TIME_STEP / (instrOf env s ch).decay * (1 - (instrOf env s ch).sustain)))
      te ch := by
  induction k with
  | zero => simpa using h
  | succ k ih =>
    have hk' : (instrOf env s ch).sustain <
        x - (k : ℚ) * (TIME_STEP / (instrOf env s ch).decay * (1 - (instrOf env s ch).sustain)) := by
      push_cast at hk
      linarith
    have heq : x - ((k + 1 : ℕ) : ℚ) *
          (TIME_STEP / (instrOf env s ch).decay * (1 - (instrOf env s ch).sustain))
        = x - (k : ℚ) * (TIME_STEP / (instrOf env s ch).decay * (1 - (instrOf env s ch).sustain))
          - TIME_STEP / (instrOf env s ch).decay * (1 - (instrOf env s ch).sustain) := by
      push_cast
      ring
    rw [Function.iterate_succ_apply', heq]
    rw [heq] at hk
    exact (decay_step env s _ _ te ch (ih hk')).1 hk

/-- The tick on which the Decay ramp reaches the sustain level ends the Decay: the level
is set to `sustain`, the state to Release when `sustain == 0` and to Sustain otherwise. -/
theorem decay_end (env : Env) (s : Synth) (v : FmVoice) (x te : ℚ) (ch : Nat)
    (h : Sounding v ADSR_DECAY x te ch)
    (hc : 0 ≤ TIME_STEP / (instrOf env s ch).decay * (1 - (instrOf env s ch).sustain))
    (k : Nat)
    (hk : (instrOf env s ch).sustain <
      x - (k : ℚ) * (TIME_STEP / (instrOf env s ch).decay * (1 - (instrOf env s ch).sustain)))
    (hk1 : x - ((k + 1 : ℕ) : ℚ) *
        (TIME_STEP / (instrOf env s ch).decay * (1 - (instrOf env s ch).sustain))
      ≤ (instrOf env s ch).sustain) :
    ((instrOf env s ch).sustain = 0 →
      Sounding ((voiceTick env s)^[k + 1] v) ADSR_RELEASE (instrOf env s ch).sustain te ch) ∧
    ((instrOf env s ch).sustain ≠ 0 →
      Sounding ((voiceTick env s)^[k + 1] v) ADSR_SUSTAIN (instrOf env s ch).sustain te ch) := by
  have heq : x - ((k + 1 : ℕ) : ℚ) *
        (TIME_STEP / (instrOf env s ch).decay * (1 - (instrOf env s ch).sustain))
      = x - (k : ℚ) * (TIME_STEP / (instrOf env s ch).decay * (1 - (instrOf env s ch).sustain))
        - TIME_STEP / (instrOf env s ch).decay * (1 - (instrOf env s ch).sustain) := by
    push_cast
    ring
  rw [Function.iterate_succ_apply']
  rw [heq] at hk1
  exact (decay_step env s _ _ te ch (decay_iter env s v x te ch h hc k hk)).2 hk1

/-- In Sustain the level is held at `sustain` and `timeElapsed` grows by `TIME_STEP` a
tick. -/
theorem sustain_iter (env : Env) (s : Synth) (v : FmVoice) (te : ℚ) (ch : Nat)
    (h : Sounding v ADSR_SUSTAIN (instrOf env s ch).sustain te ch) (k : Nat) :
    Sounding ((voiceTick env s)^[k] v) ADSR_SUSTAIN (instrOf env s ch).sustain
      (te + (k : ℚ) * TIME_STEP) ch := by
  induction k with
  | zero => simpa using h
  | succ k ih =>
    have heq : te + ((k + 1 : ℕ) : ℚ) * TIME_STEP = te + (k : ℚ) * TIME_STEP + TIME_STEP := by
      push_cast
      ring
    rw [Function.iterate_succ_apply', heq]
    exact sustain_step env s _ _ _ ch ih

/-! ## Tick counts -/

/-- A ramp of slope `TIME_STEP / a` a tick stays below 1 exactly for the tick counts
below `ceil (a * SAMPLE_RATE)`. -/
theorem ramp_lt_iff {a : ℚ} (ha : 0 < a) (k : Nat) :
    (k : ℚ) * (TIME_STEP / a) < 1 ↔ k < ⌈a * (SAMPLE_RATE : ℚ)⌉₊ := by
  rw [Nat.lt_ceil]
  have hpos : (0 : ℚ) < a * (SAMPLE_RATE : ℚ) := by positivity
  have heq : (k : ℚ) * (TIME_STEP / a) = (k : ℚ) / (a * (SAMPLE_RATE : ℚ)) := by
    unfold TIME_STEP
    rw [div_div, one_div, mul_comm ((SAMPLE_RATE : ℕ) : ℚ) a, div_eq_mul_inv]
  rw [heq, div_lt_one hpos]

theorem ceil_ticks_pos {a : ℚ} (ha : 0 < a) : 0 < ⌈a * (SAMPLE_RATE : ℚ)⌉₊ := by
  rw [Nat.ceil_pos]
  positivity

theorem step_nonneg {a : ℚ} (ha : 0 ≤ a) : 0 ≤ TIME_STEP / a := by
  unfold TIME_STEP
  positivity

/-! ## The envelope of a struck note -/

/-- A struck voice is in Attack, at level `k * TIME_STEP / attack`, for the first
`ceil (attack * SAMPLE_RATE)` ticks. -/
theorem attack_trace (env : Env) (s : Synth) (v : FmVoice) (te : ℚ) (ch : Nat)
    (h : Sounding v ADSR_ATTACK 0 te ch) (ha : 0 < (instrOf env s ch).attack)
    (k : Nat) (hk : k < ⌈(instrOf env s ch).attack * (SAMPLE_RATE : ℚ)⌉₊) :
    Sounding ((voiceTick env s)^[k] v) ADSR_ATTACK
      ((k : ℚ) * (TIME_STEP / (instrOf env s ch).attack)) te ch := by
  have h1 := attack_iter env s v 0 te ch h (step_nonneg ha.le) k
    (by rw [zero_add]; exact (ramp_lt_iff ha k).2 hk)
  rwa [zero_add] at h1

/-- After `ceil (attack * SAMPLE_RATE)` ticks a struck voice is in Decay at level 1. -/
theorem attack_done (env : Env) (s : Synth) (v : FmVoice) (te : ℚ) (ch : Nat)
    (h : Sounding v ADSR_ATTACK 0 te ch) (ha : 0 < (instrOf env s ch).attack) :
    Sounding ((voiceTick env s)^[⌈(instrOf env s ch).attack * (SAMPLE_RATE : ℚ)⌉₊] v)
      ADSR_DECAY 1 te ch := by
  obtain ⟨k, hk⟩ := Nat.exists_eq_succ_of_ne_zero (ceil_ticks_pos ha).ne'
  rw [hk]
  have hlt : k < ⌈(instrOf env s ch).attack * (SAMPLE_RATE : ℚ)⌉₊ := by
    rw [hk]
    exact Nat.lt_succ_self k
  have hge : ¬ (k + 1 < ⌈(instrOf env s ch).attack * (SAMPLE_RATE : ℚ)⌉₊) := by
    rw [hk]
    exact lt_irrefl _
  refine attack_end env s v 0 te ch h (step_nonneg ha.le) k ?_ ?_
  · rw [zero_add]
    exact (ramp_lt_iff ha k).2 hlt
  · rw [zero_add]
    exact not_lt.1 (fun hh => hge ((ramp_lt_iff ha (k + 1)).1 hh))

theorem decay_slope_nonneg (env : Env) (s : Synth) (ch : Nat)
    (hd : 0 < (instrOf env s ch).decay) (hs1 : (instrOf env s ch).sustain ≤ 1) :
    0 ≤ TIME_STEP / (instrOf env s ch).decay * (1 - (instrOf env s ch).sustain) :=
  mul_nonneg (step_nonneg hd.le) (by linarith)

theorem decay_above_iff {d su : ℚ} (hd : 0 < d) (hs : su < 1) (k : Nat) :
    su < 1 - (k : ℚ) * (TIME_STEP / d * (1 - su)) ↔ k < ⌈d * (SAMPLE_RATE : ℚ)⌉₊ := by
  rw [← ramp_lt_iff hd k]
  have hpos : 0 < 1 - su := by linarith
  constructor
  · intro h
    by_contra hn
    have h1 : 1 ≤ (k : ℚ) * (TIME_STEP / d) := not_lt.1 hn
    have h2 : 1 * (1 - su) ≤ (k : ℚ) * (TIME_STEP / d) * (1 - su) :=
      mul_le_mul_of_nonneg_right h1 hpos.le
    nlinarith
  · intro h
    have h2 : (k : ℚ) * (TIME_STEP / d) * (1 - su) < 1 * (1 - su) :=
      mul_lt_mul_of_pos_right h hpos
    nlinarith

/-- From Decay at level 1, with `sustain < 1`, the voice is in Decay for the next
`ceil (decay * SAMPLE_RATE)` ticks. -/
theorem decay_trace (env : Env) (s : Synth) (v : FmVoice) (te : ℚ) (ch : Nat)
    (h : Sounding v ADSR_DECAY 1 te ch) (hd : 0 < (instrOf env s ch).decay)
    (hs1 : (instrOf env s ch).sustain < 1)
    (k : Nat) (hk : k < ⌈(instrOf env s ch).decay * (SAMPLE_RATE : ℚ)⌉₊) :
    Sounding ((voiceTick env s)^[k] v) ADSR_DECAY
      (1 - (k : ℚ) * (TIME_STEP / (instrOf env s ch).decay * (1 - (instrOf env s ch).sustain)))
      te ch :=
  decay_iter env s v 1 te ch h (decay_slope_nonneg env s ch hd hs1.le) k
    ((decay_above_iff hd hs1 k).2 hk)

/-- From Decay at level 1, with `sustain < 1`, after `ceil (decay * SAMPLE_RATE)` ticks the
level is `sustain` and the state is Release when `sustain == 0`, Sustain otherwise. -/
theorem decay_done (env : Env) (s : Synth) (v : FmVoice) (te : ℚ) (ch : Nat)
    (h : Sounding v ADSR_DECAY 1 te ch) (hd : 0 < (instrOf env s ch).decay)
    (hs1 : (instrOf env s ch).sustain < 1) :
    ((instrOf env s ch).sustain = 0 →
      Sounding ((voiceTick env s)^[⌈(instrOf env s ch).decay * (SAMPLE_RATE : ℚ)⌉₊] v)
        ADSR_RELEASE (instrOf env s ch).sustain te ch) ∧
    ((instrOf env s ch).sustain ≠ 0 →
      Sounding ((voiceTick env s)^[⌈(instrOf env s ch).decay * (SAMPLE_RATE : ℚ)⌉₊] v)
        ADSR_SUSTAIN (instrOf env s ch).sustain te ch) := by
  obtain ⟨k, hk⟩ := Nat.exists_eq_succ_of_ne_zero (ceil_ticks_pos hd).ne'
  rw [hk]
  have hlt : k < ⌈(instrOf env s ch).decay * (SAMPLE_RATE : ℚ)⌉₊ := by
    rw [hk]
    exact Nat.lt_succ_self k
  have hge : ¬ (k + 1 < ⌈(instrOf env s ch).decay * (SAMPLE_RATE : ℚ)⌉₊) := by
    rw [hk]
    exact lt_irrefl _
  refine decay_end env s v 1 te ch h (decay_slope_nonneg env s ch hd hs1.le) k ?_ ?_
  · exact (decay_above_iff hd hs1 k).2 hlt
  · exact not_lt.1 (fun hh => hge ((decay_above_iff hd hs1 (k + 1)).1 hh))

/-- With `0 < sustain < 1` a struck voice enters Sustain on tick
`ceil (attack * SAMPLE_RATE) + ceil (decay * SAMPLE_RATE)` and from then on holds the level
`sustain` while its `timeElapsed` counts the ticks spent in Sustain. -/
theorem struck_sustain_time (env : Env) (s : Synth) (v : FmVoice) (te : ℚ) (ch : Nat)
    (h : Sounding v ADSR_ATTACK 0 te ch) (ha : 0 < (instrOf env s ch).attack)
    (hd : 0 < (instrOf env s ch).decay) (hs0 : (instrOf env s ch).sustain ≠ 0)
    (hs1 : (instrOf env s ch).sustain < 1) (m : Nat) :
    Sounding ((voiceTick env s)^[m + (⌈(instrOf env s ch).decay * (SAMPLE_RATE : ℚ)⌉₊
        + ⌈(instrOf env s ch).attack * (SAMPLE_RATE : ℚ)⌉₊)] v)
      ADSR_SUSTAIN (instrOf env s ch).sustain (te + (m : ℚ) * TIME_STEP) ch := by
  rw [Function.iterate_add_apply, Function.iterate_add_apply]
  exact sustain_iter env s _ te ch
    ((decay_done env s _ te ch (attack_done env s v te ch h ha) hd hs1).2 hs0) m

/-- The voice written by `noteOn` is in Attack at level 0 with `timeElapsed = 0`; the
instrument of every channel is as before. -/
theorem noteOn_fresh (env : Env) (s : Synth) (channel note velocity : Nat)
    (hch : channel < MAX_VOICES) :
    ∃ r : Fin MAX_VOICES, r.val = findFreeVoice s ∧
      Sounding ((noteOn env channel note velocity s).voices r) ADSR_ATTACK 0 0 channel ∧
      ((noteOn env channel note velocity s).voices r).note = note ∧
      (∀ j, j ≠ r → (noteOn env channel note velocity s).voices j = s.voices j) ∧
      ∀ c, instrOf env (noteOn env channel note velocity s) c = instrOf env s c := by
  obtain ⟨r, hr, _⟩ := findFreeVoice_char s
  have hge : ¬ channel ≥ MAX_VOICES := not_le.2 hch
  refine ⟨r, hr.symm, ?_, ?_, ?_, ?_⟩
  · simp only [Sounding, noteOn, hge, if_false, wr, hr, if_true, and_self]
  · simp only [noteOn, hge, if_false, wr, hr, if_true]
  · intro j hj
    have hne : ¬ j.val = findFreeVoice s := by
      rw [hr]
      exact fun h => hj (Fin.ext h)
    simp only [noteOn, hge, if_false, wr, hne]
  · intro c
    simp only [instrOf, noteOn, hge, if_false]

/-! ## Sustain is reached after attack and decay -/

theorem instruments_piano :
    instruments 0 = ⟨57.6, 0, 0.05, 0.3, 0.6, 0.5, 256, 128, 51.2, 102.4⟩ := rfl

theorem piano_ticks :
    ⌈(0.05 : ℚ) * (SAMPLE_RATE : ℚ)⌉₊ = 2205 ∧ ⌈(0.3 : ℚ) * (SAMPLE_RATE : ℚ)⌉₊ = 13230 := by
  constructor
  · have h : (0.05 : ℚ) * (SAMPLE_RATE : ℚ) = ((2205 : ℕ) : ℚ) := by norm_num
    rw [h, Nat.ceil_natCast]
  · have h : (0.3 : ℚ) * (SAMPLE_RATE : ℚ) = ((13230 : ℕ) : ℚ) := by norm_num
    rw [h, Nat.ceil_natCast]

theorem instruments_xylophone :
    instruments 1 = ⟨51.2, 12, 0.01, 0.15, 0.0, 0.2, 768, 512, 128, 25.6⟩ := rfl

theorem twoSameNotes_piano :
    instrOf sampleEnv twoSameNotes 0 = ⟨57.6, 0, 0.05, 0.3, 0.6, 0.5, 256, 128, 51.2, 102.4⟩ :=
  rfl

theorem updateADSR_note (v : FmVoice) (instr : Instrument) (dt : ℚ) :
    (updateADSR v instr dt).note = v.note := by
  unfold updateADSR
  dsimp only
  split_ifs <;> rfl

theorem voiceTick_note (env : Env) (s : Synth) (v : FmVoice) :
    (voiceTick env s v).note = v.note := by
  unfold voiceTick
  split_ifs
  · simp only [voiceSample, updateADSR_note]
  · rfl

theorem voiceTick_iter_note (env : Env) (s : Synth) (v : FmVoice) (k : Nat) :
    ((voiceTick env s)^[k] v).note = v.note := by
  induction k with
  | zero => rfl
  | succ k ih => rw [Function.iterate_succ_apply', voiceTick_note, ih]

theorem eightNotes_piano :
    instrOf sampleEnv eightNotes 0 = ⟨57.6, 0, 0.05, 0.3, 0.6, 0.5, 256, 128, 51.2, 102.4⟩ :=
  rfl

theorem eightNotes_funky :
    instrOf sampleEnv eightNotes 1 = ⟨57.6, 0, 0.03, 0.2, 0.7, 0.3, 128, 768, 256, 51.2⟩ :=
  rfl

theorem funky_ticks :
    ⌈(0.03 : ℚ) * (SAMPLE_RATE : ℚ)⌉₊ = 1323 ∧ ⌈(0.2 : ℚ) * (SAMPLE_RATE : ℚ)⌉₊ = 8820 := by
  constructor
  · have h : (0.03 : ℚ) * (SAMPLE_RATE : ℚ) = ((1323 : ℕ) : ℚ) := by norm_num
    rw [h, Nat.ceil_natCast]
  · have h : (0.2 : ℚ) * (SAMPLE_RATE : ℚ) = ((8820 : ℕ) : ℚ) := by norm_num
    rw [h, Nat.ceil_natCast]

/-- After 12000 ticks the second of the eight notes, the one on instrument 5, has spent
1857 ticks in Sustain. -/
theorem eightNotes_second (hv : Sounding (eightNotes.voices 1) ADSR_ATTACK 0 0 1) :
    Sounding ((ticks sampleEnv 12000 eightNotes).voices 1) ADSR_SUSTAIN 0.7 (1857 * TIME_STEP) 1 := by
  have hi := eightNotes_funky
  have h := struck_sustain_time sampleEnv eightNotes _ 0 1 hv (by rw [hi]; norm_num)
    (by rw [hi]; norm_num) (by rw [hi]; norm_num) (by rw [hi]; norm_num) 1857
  rw [hi] at h
  simp only [funky_ticks.1, funky_ticks.2] at h
  rw [ticks_voices]
  have hn : 12000 = 1857 + (8820 + 1323) := by norm_num
  have hte : (0 : ℚ) + ((1857 : ℕ) : ℚ) * TIME_STEP = 1857 * TIME_STEP := by
    rw [zero_add, Nat.cast_ofNat]
  rw [hn]
  rw [hte] at h
  exact h

/-- After 12000 ticks a note of the eight on instrument 0 is still in Decay, its
`timeElapsed` still 0. -/
theorem eightNotes_other (i : Fin MAX_VOICES)
    (hv : Sounding (eightNotes.voices i) ADSR_ATTACK 0 0 0) :
    ((ticks sampleEnv 12000 eightNotes).voices i).active = true ∧
    ((ticks sampleEnv 12000 eightNotes).voices i).state = ADSR_DECAY ∧
    ((ticks sampleEnv 12000 eightNotes).voices i).timeElapsed = 0 := by
  have hi := eightNotes_piano
  have hdec := attack_done sampleEnv eightNotes _ 0 0 hv (by rw [hi]; norm_num)
  have h := decay_trace sampleEnv eightNotes _ 0 0 hdec (by rw [hi]; norm_num)
    (by rw [hi]; norm_num) 9795 (by rw [hi]; simp only [piano_ticks.2]; norm_num)
  rw [← Function.iterate_add_apply] at h
  rw [hi] at h
  simp only [piano_ticks.1] at h
  rw [ticks_voices]
  have hn : 12000 = 9795 + 2205 := by norm_num
  rw [hn]
  exact ⟨h.1, h.2.1, h.2.2.2.1⟩

theorem eightNotes_fresh_second : Sounding (eightNotes.voices 1) ADSR_ATTACK 0 0 1 :=
  ⟨rfl, rfl, rfl, rfl, rfl⟩

theorem eightNotes_fresh_other (i : Fin MAX_VOICES) (hi : i ≠ 1) :
    Sounding (eightNotes.voices i) ADSR_ATTACK 0 0 0 := by
  fin_cases i
  · exact ⟨rfl, rfl, rfl, rfl, rfl⟩
  · exact absurd rfl hi
  · exact ⟨rfl, rfl, rfl, rfl, rfl⟩
  · exact ⟨rfl, rfl, rfl, rfl, rfl⟩
  · exact ⟨rfl, rfl, rfl, rfl, rfl⟩
  · exact ⟨rfl, rfl, rfl, rfl, rfl⟩
  · exact ⟨rfl, rfl, rfl, rfl, rfl⟩
  · exact ⟨rfl, rfl, rfl, rfl, rfl⟩

/-- C9 at a concrete run: channel 1 is mapped to instrument 5, eight notes are struck in
a row (note 60 on channel 0 first, note 61 on channel 1 second), 12000 sample ticks pass
and a ninth note is struck.  All eight voices are still active; the first-struck note sits
in voice 0 with `timeElapsed = 0`, the second in voice 1 with
`timeElapsed = 1857 * TIME_STEP`;
`findFreeVoice` returns 1 and the ninth `noteOn` rewrites voice 1 and leaves voice 0 as it
was. -/
theorem steal_skips_first_note :
    (∀ i, ((ticks sampleEnv 12000 eightNotes).voices i).active = true) ∧
    ((ticks sampleEnv 12000 eightNotes).voices 0).note = 60 ∧
    ((ticks sampleEnv 12000 eightNotes).voices 1).note = 61 ∧
    ((ticks sampleEnv 12000 eightNotes).voices 0).timeElapsed = 0 ∧
    ((ticks sampleEnv 12000 eightNotes).voices 1).timeElapsed = 1857 * TIME_STEP ∧
    findFreeVoice (ticks sampleEnv 12000 eightNotes) = 1 ∧
    (noteOn sampleEnv 0 72 127 (ticks sampleEnv 12000 eightNotes)).voices 0
      = (ticks sampleEnv 12000 eightNotes).voices 0 ∧
    ((noteOn sampleEnv 0 72 127 (ticks sampleEnv 12000 eightNotes)).voices 1).note = 72 := by
  have h1 := eightNotes_second eightNotes_fresh_second
  have hoth : ∀ i : Fin MAX_VOICES, i ≠ 1 →
      ((ticks sampleEnv 12000 eightNotes).voices i).active = true ∧
      ((ticks sampleEnv 12000 eightNotes).voices i).state = ADSR_DECAY ∧
      ((ticks sampleEnv 12000 eightNotes).voices i).timeElapsed = 0 :=
    fun i hi => eightNotes_other i (eightNotes_fresh_other i hi)
  have hact : ∀ i, ((ticks sampleEnv 12000 eightNotes).voices i).active = true := by
    intro i
    by_cases hi : i = 1
    · rw [hi]
      exact h1.1
    · exact (hoth i hi).1
  have hpos : (0 : ℚ) < 1857 * TIME_STEP := by
    unfold TIME_STEP
    norm_num
  have hfree : findFreeVoice (ticks sampleEnv 12000 eightNotes) = 1 := by
    obtain ⟨r, hr, hchar⟩ := findFreeVoice_char (ticks sampleEnv 12000 eightNotes)
    rcases hchar with ⟨hin, _⟩ | ⟨_, hmax, _⟩
    · rw [hact r] at hin
      exact absurd hin (by decide)
    · have hr1 : r = 1 := by
        by_contra hne
        have hle := hmax 1
        rw [(hoth r hne).2.2, h1.2.2.2.1] at hle
        exact absurd hpos (not_lt.2 hle)
      rw [hr, hr1]
      rfl
  have hn0 : ((ticks sampleEnv 12000 eightNotes).voices 0).note = 60 := by
    rw [ticks_voices, voiceTick_iter_note]
    rfl
  have hn1 : ((ticks sampleEnv 12000 eightNotes).voices 1).note = 61 := by
    rw [ticks_voices, voiceTick_iter_note]
    rfl
  obtain ⟨r, hr, _, hnote, hrest, _⟩ :=
    noteOn_fresh sampleEnv (ticks sampleEnv 12000 eightNotes) 0 72 127 (by decide)
  have hr1 : r = 1 := Fin.ext (by rw [hr, hfree]; rfl)
  rw [hr1] at hnote hrest
  exact ⟨hact, hn0, hn1, (hoth 0 (by decide)).2.2, h1.2.2.2.1, hfree,
    hrest 0 (by decide), hnote⟩

/-! ## The mixed sample -/

theorem mixLoop_fold_snd (env : Env) (s : Synth) (l : List (Fin MAX_VOICES)) (hnd : l.Nodup)
    (vs : Fin MAX_VOICES → FmVoice) (m : ℚ) :
    (l.foldl
      (fun (acc : (Fin MAX_VOICES → FmVoice) × ℚ) i =>
        if (acc.1 i).active then
          (Function.update acc.1 i (voiceSample env s (acc.1 i)).1,
            acc.2 + (voiceSample env s (acc.1 i)).2)
        else acc)
      (vs, m)).2
    = m + (l.map (fun i => if (vs i).active then (voiceSample env s (vs i)).2 else 0)).sum := by
  induction l generalizing vs m with
  | nil => simp
  | cons a l ih =>
    have ha : a ∉ l := (List.nodup_cons.1 hnd).1
    have hl : l.Nodup := (List.nodup_cons.1 hnd).2
    rw [List.foldl_cons, List.map_cons, List.sum_cons]
    by_cases h : (vs a).active = true
    · simp only [h, if_true]
      rw [ih hl]
      have hmap : l.map (fun i =>
            if (Function.update vs a (voiceSample env s (vs a)).1 i).active then
              (voiceSample env s (Function.update vs a (voiceSample env s (vs a)).1 i)).2
            else 0)
          = l.map (fun i => if (vs i).active then (voiceSample env s (vs i)).2 else 0) := by
        apply List.map_congr_left
        intro i hi
        have hne : i ≠ a := fun hh => ha (hh ▸ hi)
        rw [Function.update_noteq hne]
      rw [hmap]
      ring
    · have h' : (vs a).active = false := by simpa using h
      simp only [h', Bool.false_eq_true, if_false]
      rw [ih hl]
      ring

/-- The value of `mix` at the end of the loop of `generateSample`: the sum of the
contributions of the voices that were active at the call. -/
theorem mixLoop_snd (env : Env) (s : Synth) :
    (mixLoop env s).2
      = ∑ i : Fin MAX_VOICES,
          if (s.voices i).active then (voiceSample env s (s.voices i)).2 else 0 := by
  unfold mixLoop
  rw [mixLoop_fold_snd env s _ (List.nodup_finRange _), zero_add, Fin.sum_univ_def]

theorem enRango_eq_clamp (m : ℚ) : enRango m (-1) 1 = max (-1) (min m 1) := by
  unfold enRango
  by_cases h1 : m > 1
  · rw [if_pos h1, min_eq_right h1.le, max_eq_right (by norm_num)]
  · rw [if_neg h1, min_eq_left (not_lt.1 h1)]
    by_cases h2 : m < -1
    · rw [if_pos h2, max_eq_left h2.le]
    · rw [if_neg h2, max_eq_right (not_lt.1 h2)]

theorem truncToInt_bounds {x : ℚ} {b : ℤ} (hb : 0 ≤ b) (h1 : -(b : ℚ) ≤ x) (h2 : x ≤ (b : ℚ)) :
    -b ≤ truncToInt x ∧ truncToInt x ≤ b := by
  unfold truncToInt
  by_cases h : 0 ≤ x
  · rw [if_pos h]
    constructor
    · have : (0 : ℤ) ≤ ⌊x⌋ := Int.floor_nonneg.2 h
      omega
    · exact Int.floor_le_iff.2 (by linarith)
  · rw [if_neg h]
    constructor
    · rw [Int.le_ceil_iff]
      push_cast
      linarith
    · have : ⌈x⌉ ≤ 0 := Int.ceil_le.2 (by push_cast; linarith)
      omega

/-- C12: the value returned by `generateSample` is the truncation toward zero of
`32767 * clamp(mix, -1, 1)`, where `mix` is the sum of the contributions of the active
voices; it lies in `[-32767, 32767]`, inside the signed 16-bit range. -/
theorem generateSample_clamped (env : Env) (s : Synth) :
    (mixLoop env s).2
      = (∑ i : Fin MAX_VOICES,
          if (s.voices i).active then (voiceSample env s (s.voices i)).2 else 0) ∧
    (generateSample env s).2 = truncToInt (32767 * max (-1) (min (mixLoop env s).2 1)) ∧
    -32767 ≤ (generateSample env s).2 ∧ (generateSample env s).2 ≤ 32767 ∧
    -32768 ≤ (generateSample env s).2 ∧ (generateSample env s).2 < 32768 := by
  have hval : (generateSample env s).2
      = truncToInt (32767 * max (-1) (min (mixLoop env s).2 1)) := by
    simp only [generateSample]
    rw [enRango_eq_clamp, mul_comm]
  have hlo : (-1 : ℚ) ≤ max (-1) (min (mixLoop env s).2 1) := le_max_left _ _
  have hhi : max (-1) (min (mixLoop env s).2 1) ≤ (1 : ℚ) :=
    max_le (by norm_num) (min_le_right _ _)
  have hb := truncToInt_bounds (x := 32767 * max (-1) (min (mixLoop env s).2 1)) (b := 32767)
    (by norm_num) (by push_cast; linarith) (by push_cast; linarith)
  rw [← hval] at hb
  refine ⟨mixLoop_snd env s, hval, hb.1, hb.2, by omega, by omega⟩

/-! ## Global volume -/

theorem alterVolNote_globalVolume (env : Env) (channel velocity : Nat) (s : Synth) :
    (alterVolNote env channel velocity s).globalVolume = s.globalVolume := by
  unfold alterVolNote
  split_ifs
  · rfl
  · dsimp only
    split <;> rfl

theorem alterPitchNote_globalVolume (env : Env) (channel cant : Nat) (s : Synth) :
    (alterPitchNote env channel cant s).globalVolume = s.globalVolume := by
  unfold alterPitchNote
  split_ifs
  · rfl
  · dsimp only
    split <;> rfl

theorem noteOn_globalVolume (env : Env) (channel note velocity : Nat) (s : Synth) :
    (noteOn env channel note velocity s).globalVolume = s.globalVolume := by
  unfold noteOn
  split_ifs <;> rfl

theorem noteOff_globalVolume (env : Env) (channel note : Nat) (s : Synth) :
    (noteOff env channel note s).globalVolume = s.globalVolume := by
  unfold noteOff
  split_ifs <;> rfl

theorem setInstrument_globalVolume (channel instrument : Nat) (s : Synth) :
    (setInstrument channel instrument s).globalVolume = s.globalVolume := by
  unfold setInstrument
  split_ifs <;> rfl

/-- Every call other than `setVolume` leaves `globalVolume` as it was. -/
theorem apply_globalVolume (env : Env) (op : Op) (s : Synth) (h : op.isSetVolume = false) :
    (op.apply env s).globalVolume = s.globalVolume := by
  cases op with
  | setMaxNotes m => rfl
  | setVolume v => exact absurd h (by simp [Op.isSetVolume])
  | allNoteOff => rfl
  | alterVolNote c v => exact alterVolNote_globalVolume env c v s
  | alterPitchNote c b => exact alterPitchNote_globalVolume env c b s
  | setInstrument c i => exact setInstrument_globalVolume c i s
  | noteOn c n v => exact noteOn_globalVolume env c n v s
  | noteOff c n => exact noteOff_globalVolume env c n s
  | initSineTable => rfl
  | generateSample => rfl

theorem run_globalVolume (env : Env) (ops : List Op) (s : Synth)
    (h : ∀ op ∈ ops, op.isSetVolume = false) :
    (run env ops s).globalVolume = s.globalVolume := by
  induction ops generalizing s with
  | nil => rfl
  | cons op ops ih =>
    have h1 := h op (by simp)
    have h2 : ∀ o ∈ ops, o.isSetVolume = false := fun o ho => h o (by simp [ho])
    show (run env ops (op.apply env s)).globalVolume = s.globalVolume
    rw [ih _ h2, apply_globalVolume env op s h1]

/-- With `globalVolume == 0` the loop of `generateSample` leaves `mix` at 0 and the
returned sample is 0. -/
theorem generateSample_silent (env : Env) (s : Synth) (h : s.globalVolume = 0) :
    (generateSample env s).2 = 0 := by
  have hmix : (mixLoop env s).2 = 0 := by
    rw [mixLoop_snd]
    apply Finset.sum_eq_zero
    intro i _
    split_ifs
    · simp only [voiceSample, h, mul_zero]
    · rfl
  have he : enRango (0 : ℚ) (-1) 1 = 0 := by
    unfold enRango
    norm_num
  simp only [generateSample, hmix, he, zero_mul]
  simp [truncToInt]

/-- C13: `setVolume(0)` sets the global volume to 0, and after any sequence of calls that
contains no further `setVolume` (note operations and sample ticks included) the global
volume is still 0 and `generateSample` returns exactly 0. -/
theorem volume_zero_silence (env : Env) (s : Synth) (ops : List Op)
    (h : ∀ op ∈ ops, op.isSetVolume = false) :
    (setVolume 0 s).globalVolume = 0 ∧
    (run env ops (setVolume 0 s)).globalVolume = 0 ∧
    (generateSample env (run env ops (setVolume 0 s))).2 = 0 := by
  have h0 : (setVolume 0 s).globalVolume = 0 := by
    simp [setVolume, enRango]
  have h1 : (run env ops (setVolume 0 s)).globalVolume = 0 := by
    rw [run_globalVolume env ops _ h, h0]
  exact ⟨h0, h1, generateSample_silent env _ h1⟩

/-- Instance of `volume_zero_silence`: the sine table filled, the volume set to 0, a note
struck at full velocity and two samples generated; the third sample is 0. -/
theorem volume_zero_silence_witness :
    (∀ op ∈ [Op.noteOn 0 69 127, Op.generateSample, Op.generateSample],
      op.isSetVolume = false) ∧
    (generateSample sampleEnv
      (run sampleEnv [Op.noteOn 0 69 127, Op.generateSample, Op.generateSample]
        (setVolume 0 (initSineTable sampleEnv Synth.init)))).2 = 0 :=
  ⟨by decide,
    (volume_zero_silence sampleEnv (initSineTable sampleEnv Synth.init)
      [Op.noteOn 0 69 127, Op.generateSample, Op.generateSample] (by decide)).2.2⟩

/-! ## Stereo packing -/

theorem stereoWord_eq (sample : ℤ) :
    stereoWord sample = 65536 * (sample % 65536).toNat + (sample % 65536).toNat := by
  have hB : (sample % 65536).toNat < 2 ^ 16 := by
    have := Int.emod_lt_of_pos sample (by norm_num : (0 : ℤ) < 65536)
    have := Int.emod_nonneg sample (by norm_num : (65536 : ℤ) ≠ 0)
    omega
  have hshift : ((sample % 4294967296).toNat <<< 16) % 4294967296
      = 2 ^ 16 * (sample % 65536).toNat := by
    rw [Nat.shiftLeft_eq]
    have := Int.emod_nonneg sample (by norm_num : (4294967296 : ℤ) ≠ 0)
    have := Int.emod_nonneg sample (by norm_num : (65536 : ℤ) ≠ 0)
    omega
  unfold stereoWord
  rw [hshift, ← Nat.mul_add_lt_is_or hB]

/-- C15: in the 32-bit word `((uint32_t)s << 16) | (uint16_t)s` the upper 16 bits and the
lower 16 bits are both the two's-complement 16-bit pattern of `s`, that is `s mod 2^16`,
for every sample `s`, negative ones included. -/
theorem stereoWord_halves (sample : ℤ) :
    stereoWord sample < 4294967296 ∧
    stereoWord sample / 65536 = (sample % 65536).toNat ∧
    stereoWord sample % 65536 = (sample % 65536).toNat ∧
    ((sample % 65536).toNat : ℤ) = sample % 65536 := by
  have hB : (sample % 65536).toNat < 65536 := by
    have := Int.emod_lt_of_pos sample (by norm_num : (0 : ℤ) < 65536)
    have := Int.emod_nonneg sample (by norm_num : (65536 : ℤ) ≠ 0)
    omega
  rw [stereoWord_eq]
  refine ⟨by omega, by omega, by omega, ?_⟩
  exact Int.toNat_of_nonneg (Int.emod_nonneg sample (by norm_num))

/-! ## Pitch bend -/

/-- The semitone offset of `alterPitchNote` for a bend value in `0..127`. -/
theorem map_bend (b : Nat) (hb : b ≤ 127) :
    map (b : ℤ) 0 127 (-16) 17 = ((b * 33 / 127 : Nat) : ℤ) - 16 ∧
    -16 ≤ map (b : ℤ) 0 127 (-16) 17 ∧ map (b : ℤ) 0 127 (-16) 17 ≤ 17 := by
  have h : map (b : ℤ) 0 127 (-16) 17 = ((b * 33 / 127 : Nat) : ℤ) - 16 := by
    unfold map
    rw [Int.tdiv_eq_ediv (by omega) (by norm_num)]
    push_cast
    omega
  rw [h]
  refine ⟨rfl, by omega, by omega⟩

/-- C17: on a valid channel and for a bend value `b` in `0..127`, `alterPitchNote` computes
the offset `b * 33 / 127 - 16` (integer division), which lies in `[-16, 17]`, is -16 at
`b = 0` and 0 at `b = 64`; on the lowest-index active voice of the channel it sets
`carrierFreq = midi2Freq(note + pitchOffset + off)` and
`modulatorFreq = carrierFreq * fmFreqMultiplier / 256` and changes nothing else; with no
active voice on the channel the state is unchanged. -/
theorem alterPitchNote_spec (env : Env) (s : Synth) (channel b : Nat)
    (hch : channel < MAX_VOICES) (hb : b ≤ 127) :
    (map (b : ℤ) 0 127 (-16) 17 = ((b * 33 / 127 : Nat) : ℤ) - 16 ∧
      -16 ≤ map (b : ℤ) 0 127 (-16) 17 ∧ map (b : ℤ) 0 127 (-16) 17 ≤ 17 ∧
      map 0 0 127 (-16) 17 = -16 ∧ map 64 0 127 (-16) 17 = 0) ∧
    (∀ i : Fin MAX_VOICES,
      (s.voices i).active = true → (s.voices i).channel = channel →
      (∀ j, j < i → ¬ ((s.voices j).active = true ∧ (s.voices j).channel = channel)) →
      0 ≤ ((s.voices i).note : ℚ) + (instrOf env s channel).pitchOffset
            + ((map (b : ℤ) 0 127 (-16) 17 : ℤ) : ℚ) →
      ((s.voices i).note : ℚ) + (instrOf env s channel).pitchOffset
            + ((map (b : ℤ) 0 127 (-16) 17 : ℤ) : ℚ) ≤ 255 →
      (alterPitchNote env channel b s).voices i =
        { (s.voices i) with
          carrierFreq := midi2Freq env
            ⌊((s.voices i).note : ℚ) + (instrOf env s channel).pitchOffset
              + ((map (b : ℤ) 0 127 (-16) 17 : ℤ) : ℚ)⌋₊,
          modulatorFreq := midi2Freq env
            ⌊((s.voices i).note : ℚ) + (instrOf env s channel).pitchOffset
              + ((map (b : ℤ) 0 127 (-16) 17 : ℤ) : ℚ)⌋₊
            * (instrOf env s channel).fmFreqMultiplier / 256 } ∧
      (∀ j, j ≠ i → (alterPitchNote env channel b s).voices j = s.voices j) ∧
      (alterPitchNote env channel b s).voiceInstrument = s.voiceInstrument ∧
      (alterPitchNote env channel b s).globalVolume = s.globalVolume ∧
      (alterPitchNote env channel b s).sineTable = s.sineTable) ∧
    ((∀ i, ¬ ((s.voices i).active = true ∧ (s.voices i).channel = channel)) →
      alterPitchNote env channel b s = s) := by
  have hge : ¬ channel ≥ MAX_VOICES := not_le.2 hch
  refine ⟨⟨(map_bend b hb).1, (map_bend b hb).2.1, (map_bend b hb).2.2, by decide, by decide⟩,
    ?_, ?_⟩
  · intro i hact hchan hfirst h0 h1
    cases hf : (List.finRange MAX_VOICES).find?
        (fun i => (s.voices i).active && decide ((s.voices i).channel = channel)) with
    | none =>
      have := find_finRange_none _ hf i
      simp [hact, hchan] at this
    | some k =>
      obtain ⟨hk, hkmin⟩ := find_finRange_some _ k hf
      have hki : k = i := by
        rcases lt_trichotomy k i with hlt | heq | hgt
        · exfalso
          refine hfirst k hlt ?_
          simpa using hk
        · exact heq
        · exfalso
          have := hkmin i hgt
          simp [hact, hchan] at this
      subst hki
      refine ⟨?_, ?_, ?_, ?_, ?_⟩
      · simp only [alterPitchNote, hge, if_false, hf, Function.update_same,
          toUint8_eq_floor h0 h1]
      · intro j hj
        simp only [alterPitchNote, hge, if_false, hf, Function.update_noteq hj]
      · simp only [alterPitchNote, hge, if_false, hf]
      · simp only [alterPitchNote, hge, if_false, hf]
      · simp only [alterPitchNote, hge, if_false, hf]
  · intro hnone
    cases hf : (List.finRange MAX_VOICES).find?
        (fun i => (s.voices i).active && decide ((s.voices i).channel = channel)) with
    | none => simp only [alterPitchNote, hge, if_false, hf]
    | some k =>
      exfalso
      obtain ⟨hk, _⟩ := find_finRange_some _ k hf
      refine hnone k ?_
      simpa using hk

/-- Instance of `alterPitchNote_spec`: the same note struck twice on channel 0, then the
bend value 64, whose offset is 0; voice 0 is retuned to `midi2Freq(60)`, voice 1 is as it
was. -/
theorem alterPitchNote_spec_witness :
    (0 : Nat) < MAX_VOICES ∧ (64 : Nat) ≤ 127 ∧
    ((alterPitchNote sampleEnv 0 64 twoSameNotes).voices 0).carrierFreq
      = midi2Freq sampleEnv 60 ∧
    (alterPitchNote sampleEnv 0 64 twoSameNotes).voices 1 = twoSameNotes.voices 1 := by
  have hsum : ((twoSameNotes.voices 0).note : ℚ) + (instrOf sampleEnv twoSameNotes 0).pitchOffset
      + ((map ((64 : Nat) : ℤ) 0 127 (-16) 17 : ℤ) : ℚ) = ((60 : ℕ) : ℚ) := by
    have h1 : (twoSameNotes.voices 0).note = 60 := by decide
    have h2 : (instrOf sampleEnv twoSameNotes 0).pitchOffset = 0 := by
      rw [twoSameNotes_piano]
    have h3 : map ((64 : Nat) : ℤ) 0 127 (-16) 17 = 0 := by decide
    rw [h1, h2, h3]
    norm_num
  have h := (alterPitchNote_spec sampleEnv twoSameNotes 0 64 (by decide) (by decide)).2.1 0
    (by decide) (by decide) (fun j hj => absurd hj (Fin.not_lt_zero j))
    (by rw [hsum]; norm_num) (by rw [hsum]; norm_num)
  refine ⟨by decide, by decide, ?_, h.2.1 1 (by decide)⟩
  rw [h.1, hsum, Nat.floor_natCast]

/-! ## Invariants of the voice pool -/

theorem updateADSR_channel (v : FmVoice) (instr : Instrument) (dt : ℚ) :
    (updateADSR v instr dt).channel = v.channel := by
  unfold updateADSR
  dsimp only
  split_ifs <;> rfl

theorem updateADSR_inactive (v : FmVoice) (instr : Instrument) (dt : ℚ)
    (hv : v.active = true) (h : (updateADSR v instr dt).active = false) :
    (updateADSR v instr dt).state = ADSR_IDLE ∧ (updateADSR v instr dt).currentLevel = 0 := by
  unfold updateADSR at h ⊢
  dsimp only at h ⊢
  split_ifs at h ⊢ <;> simp_all

theorem updateADSR_level (v : FmVoice) (instr : Instrument) (dt : ℚ) (hdt : 0 ≤ dt)
    (hi : instr.Valid) (hv : v.LevelOk) : (updateADSR v instr dt).LevelOk := by
  obtain ⟨hs0, hs1, ha, hd, hr⟩ := hi
  obtain ⟨hv0, hv1⟩ := hv
  have hca : 0 ≤ dt / instr.attack := div_nonneg hdt ha.le
  have hcd : 0 ≤ dt / instr.decay * (1 - instr.sustain) :=
    mul_nonneg (div_nonneg hdt hd.le) (by linarith)
  have hcr : 0 ≤ dt / instr.release := div_nonneg hdt hr.le
  unfold updateADSR FmVoice.LevelOk
  dsimp only
  split_ifs
  all_goals constructor
  all_goals first | linarith | norm_num

theorem voiceTick_channel (env : Env) (s : Synth) (v : FmVoice) :
    (voiceTick env s v).channel = v.channel := by
  unfold voiceTick
  split_ifs
  · simp only [voiceSample, updateADSR_channel]
  · rfl

theorem voiceTick_ok (env : Env) (s : Synth) (v : FmVoice) (hv : v.Ok) :
    (voiceTick env s v).Ok := by
  refine ⟨by rw [voiceTick_channel]; exact hv.1, ?_⟩
  by_cases ha : v.active = true
  · intro h
    simp only [voiceTick, ha, if_true, voiceSample] at h ⊢
    exact updateADSR_inactive v _ _ ha h
  · have ha' : v.active = false := by simpa using ha
    rw [voiceTick_inactive env s v ha']
    exact hv.2

theorem instrOf_valid (env : Env) (s : Synth) (hbank : ∀ k, (env.instruments k).Valid)
    (hs : s.Ok) (ch : Nat) (hch : ch < MAX_VOICES) : (instrOf env s ch).Valid := by
  unfold instrOf rd
  rw [dif_pos hch, dif_pos (hs.1 ⟨ch, hch⟩)]
  exact hbank _

theorem voiceTick_level (env : Env) (s : Synth) (hbank : ∀ k, (env.instruments k).Valid)
    (hs : s.Ok) (v : FmVoice) (hvo : v.Ok) (hv : v.LevelOk) :
    (voiceTick env s v).LevelOk := by
  by_cases ha : v.active = true
  · have hdt : (0 : ℚ) ≤ TIME_STEP := by
      unfold TIME_STEP
      norm_num
    have h := updateADSR_level v (instrOf env s v.channel) TIME_STEP hdt
      (instrOf_valid env s hbank hs v.channel hvo.1) hv
    simp only [voiceTick, ha, if_true, voiceSample, FmVoice.LevelOk] at h ⊢
    exact h
  · have ha' : v.active = false := by simpa using ha
    rw [voiceTick_inactive env s v ha']
    exact hv

theorem ok_of_fields {v w : FmVoice} (hc : w.channel = v.channel) (ha : w.active = v.active)
    (hs : w.state = v.state) (hl : w.currentLevel = v.currentLevel) (hv : v.Ok) : w.Ok := by
  unfold FmVoice.Ok at hv ⊢
  rw [hc, ha, hs, hl]
  exact hv

theorem levelOk_of_fields {v w : FmVoice} (hl : w.currentLevel = v.currentLevel)
    (hv : v.LevelOk) : w.LevelOk := by
  unfold FmVoice.LevelOk at hv ⊢
  rw [hl]
  exact hv

/-- The envelope fields and the channel of every voice are as before after
`alterVolNote`. -/
theorem alterVolNote_fields (env : Env) (channel velocity : Nat) (s : Synth)
    (j : Fin MAX_VOICES) :
    ((alterVolNote env channel velocity s).voices j).channel = (s.voices j).channel ∧
    ((alterVolNote env channel velocity s).voices j).active = (s.voices j).active ∧
    ((alterVolNote env channel velocity s).voices j).state = (s.voices j).state ∧
    ((alterVolNote env channel velocity s).voices j).currentLevel
      = (s.voices j).currentLevel := by
  unfold alterVolNote
  split_ifs
  · exact ⟨rfl, rfl, rfl, rfl⟩
  · dsimp only
    split
    · rename_i i _
      by_cases hj : j = i
      · subst hj
        simp only [Function.update_same, and_self]
      · simp only [Function.update_noteq hj, and_self]
    · exact ⟨rfl, rfl, rfl, rfl⟩

/-- The envelope fields and the channel of every voice are as before after
`alterPitchNote`. -/
theorem alterPitchNote_fields (env : Env) (channel cant : Nat) (s : Synth)
    (j : Fin MAX_VOICES) :
    ((alterPitchNote env channel cant s).voices j).channel = (s.voices j).channel ∧
    ((alterPitchNote env channel cant s).voices j).active = (s.voices j).active ∧
    ((alterPitchNote env channel cant s).voices j).state = (s.voices j).state ∧
    ((alterPitchNote env channel cant s).voices j).currentLevel
      = (s.voices j).currentLevel := by
  unfold alterPitchNote
  split_ifs
  · exact ⟨rfl, rfl, rfl, rfl⟩
  · dsimp only
    split
    · rename_i i _
      by_cases hj : j = i
      · subst hj
        simp only [Function.update_same, and_self]
      · simp only [Function.update_noteq hj, and_self]
    · exact ⟨rfl, rfl, rfl, rfl⟩

theorem alterVolNote_voiceInstrument (env : Env) (channel velocity : Nat) (s : Synth) :
    (alterVolNote env channel velocity s).voiceInstrument = s.voiceInstrument := by
  unfold alterVolNote
  split_ifs
  · rfl
  · dsimp only
    split <;> rfl

theorem alterPitchNote_voiceInstrument (env : Env) (channel cant : Nat) (s : Synth) :
    (alterPitchNote env channel cant s).voiceInstrument = s.voiceInstrument := by
  unfold alterPitchNote
  split_ifs
  · rfl
  · dsimp only
    split <;> rfl

theorem noteOn_voiceInstrument (env : Env) (channel note velocity : Nat) (s : Synth) :
    (noteOn env channel note velocity s).voiceInstrument = s.voiceInstrument := by
  unfold noteOn
  split_ifs <;> rfl

theorem noteOff_voiceInstrument (env : Env) (channel note : Nat) (s : Synth) :
    (noteOff env channel note s).voiceInstrument = s.voiceInstrument := by
  unfold noteOff
  split_ifs <;> rfl

theorem setInstrument_voices (channel instrument : Nat) (s : Synth) :
    (setInstrument channel instrument s).voices = s.voices := by
  unfold setInstrument
  split_ifs <;> rfl

theorem setInstrument_map_ok (channel instrument : Nat) (s : Synth)
    (h : ∀ c, s.voiceInstrument c < NUM_INSTRUMENTS) (c : Fin MAX_VOICES) :
    (setInstrument channel instrument s).voiceInstrument c < NUM_INSTRUMENTS := by
  unfold setInstrument
  split_ifs with hg
  · simp only [wr]
    split_ifs
    · exact hg.2
    · exact h c
  · exact h c

/-- After `noteOn` every voice is either as before or the voice just written, which is
active, in Attack, at level 0, on a valid channel. -/
theorem noteOn_voice_cases (env : Env) (channel note velocity : Nat) (s : Synth)
    (j : Fin MAX_VOICES) :
    (noteOn env channel note velocity s).voices j = s.voices j ∨
    (((noteOn env channel note velocity s).voices j).channel < MAX_VOICES ∧
      ((noteOn env channel note velocity s).voices j).active = true ∧
      ((noteOn env channel note velocity s).voices j).currentLevel = 0) := by
  unfold noteOn
  split_ifs with hg
  · exact Or.inl rfl
  · simp only [wr]
    split_ifs
    · exact Or.inr ⟨not_le.1 hg, rfl, rfl⟩
    · exact Or.inl rfl

/-- After `noteOff` every voice is either as before or an active voice moved to
Release. -/
theorem noteOff_voice_cases (env : Env) (channel note : Nat) (s : Synth)
    (j : Fin MAX_VOICES) :
    (noteOff env channel note s).voices j = s.voices j ∨
    ((s.voices j).active = true ∧
      (noteOff env channel note s).voices j = { (s.voices j) with state := ADSR_RELEASE }) := by
  by_cases hch : channel < MAX_VOICES
  · rw [noteOff_voices env s channel note hch j]
    split_ifs with h
    · exact Or.inr ⟨h.1, rfl⟩
    · exact Or.inl rfl
  · left
    simp only [noteOff, ge_iff_le, not_lt.1 hch, if_true]

theorem noteOn_ok (env : Env) (channel note velocity : Nat) (s : Synth) (hs : s.Ok) :
    (noteOn env channel note velocity s).Ok := by
  refine ⟨by rw [noteOn_voiceInstrument]; exact hs.1, fun j => ?_⟩
  rcases noteOn_voice_cases env channel note velocity s j with h | ⟨h1, h2, _⟩
  · rw [h]
    exact hs.2 j
  · exact ⟨h1, fun hf => absurd (h2.symm.trans hf) (by decide)⟩

theorem noteOff_ok (env : Env) (channel note : Nat) (s : Synth) (hs : s.Ok) :
    (noteOff env channel note s).Ok := by
  refine ⟨by rw [noteOff_voiceInstrument]; exact hs.1, fun j => ?_⟩
  rcases noteOff_voice_cases env channel note s j with h | ⟨h1, h2⟩
  · rw [h]
    exact hs.2 j
  · rw [h2]
    exact ⟨(hs.2 j).1, fun hf => absurd (h1.symm.trans hf) (by decide)⟩

theorem allNoteOff_ok (s : Synth) (hs : s.Ok) : (allNoteOff s).Ok := by
  refine ⟨hs.1, fun j => ?_⟩
  rw [allNoteOff_voices]
  split_ifs
  · exact ⟨Nat.zero_lt_succ _, fun _ => ⟨rfl, rfl⟩⟩
  · exact hs.2 j

/-- Every call keeps the map entries valid instrument indices, the channel of every voice a
valid index, and every inactive voice Idle at level 0. -/
theorem apply_ok (env : Env) (op : Op) (s : Synth) (hs : s.Ok) : (op.apply env s).Ok := by
  cases op with
  | setMaxNotes m => exact hs
  | setVolume v => exact hs
  | allNoteOff => exact allNoteOff_ok s hs
  | alterVolNote c v =>
    refine ⟨?_, fun j => ?_⟩
    · show ∀ k, (alterVolNote env c v s).voiceInstrument k < NUM_INSTRUMENTS
      rw [alterVolNote_voiceInstrument]
      exact hs.1
    · obtain ⟨h1, h2, h3, h4⟩ := alterVolNote_fields env c v s j
      exact ok_of_fields h1 h2 h3 h4 (hs.2 j)
  | alterPitchNote c b =>
    refine ⟨?_, fun j => ?_⟩
    · show ∀ k, (alterPitchNote env c b s).voiceInstrument k < NUM_INSTRUMENTS
      rw [alterPitchNote_voiceInstrument]
      exact hs.1
    · obtain ⟨h1, h2, h3, h4⟩ := alterPitchNote_fields env c b s j
      exact ok_of_fields h1 h2 h3 h4 (hs.2 j)
  | setInstrument c i =>
    refine ⟨setInstrument_map_ok c i s hs.1, fun j => ?_⟩
    show ((setInstrument c i s).voices j).Ok
    rw [setInstrument_voices]
    exact hs.2 j
  | noteOn c n v => exact noteOn_ok env c n v s hs
  | noteOff c n => exact noteOff_ok env c n s hs
  | initSineTable => exact hs
  | generateSample =>
    refine ⟨hs.1, fun j => ?_⟩
    show ((tick env s).voices j).Ok
    rw [tick_voices]
    exact voiceTick_ok env s _ (hs.2 j)

theorem init_ok : Synth.init.Ok :=
  ⟨fun _ => Nat.zero_lt_succ _, fun _ => ⟨Nat.zero_lt_succ _, fun _ => ⟨rfl, rfl⟩⟩⟩

theorem run_ok (env : Env) (ops : List Op) (s : Synth) (hs : s.Ok) : (run env ops s).Ok := by
  induction ops generalizing s with
  | nil => exact hs
  | cons op ops ih => exact ih _ (apply_ok env op s hs)

/-! ## All notes off on a reachable pool -/

/-- C11: in every state reached from program start by a sequence of calls (control
operations and sample ticks), after `allNoteOff` every voice is inactive, Idle and at
level 0, and the channel-to-instrument map, the global volume and the sine table are as
before. -/
theorem allNoteOff_silences (env : Env) (ops : List Op) :
    (∀ i, ((allNoteOff (run env ops Synth.init)).voices i).active = false ∧
      ((allNoteOff (run env ops Synth.init)).voices i).state = ADSR_IDLE ∧
      ((allNoteOff (run env ops Synth.init)).voices i).currentLevel = 0) ∧
    (allNoteOff (run env ops Synth.init)).voiceInstrument
      = (run env ops Synth.init).voiceInstrument ∧
    (allNoteOff (run env ops Synth.init)).globalVolume
      = (run env ops Synth.init).globalVolume ∧
    (allNoteOff (run env ops Synth.init)).sineTable = (run env ops Synth.init).sineTable := by
  have hok := run_ok env ops Synth.init init_ok
  refine ⟨fun i => ?_, rfl, rfl, rfl⟩
  rw [allNoteOff_voices]
  by_cases h : ((run env ops Synth.init).voices i).active = true
  · rw [if_pos h]
    exact ⟨rfl, rfl, rfl⟩
  · have h' : ((run env ops Synth.init).voices i).active = false := by simpa using h
    rw [if_neg h]
    exact ⟨h', (hok.2 i).2 h'⟩

/-! ## Table lookups -/

theorem sineIndex_lt (env : Env) (phase : ℚ) : sineIndex env phase < SINE_TABLE_SIZE := by
  unfold sineIndex
  exact Nat.lt_succ_of_le Nat.and_le_right

/-- C20: in every state reached from program start by a sequence of calls, every entry of
the channel-to-instrument map is below `NUM_INSTRUMENTS` and the channel of every voice is
below `MAX_VOICES`, so `voiceInstrument[voices[i].channel]` and the instrument it selects
are read inside their arrays, as is `voiceInstrument[channel]` for every channel that
passes the guard of a control function; and for every phase, negative ones included, the
sine-table index lies below `SINE_TABLE_SIZE`. -/
theorem lookups_in_range (env : Env) (ops : List Op) :
    (∀ c, (run env ops Synth.init).voiceInstrument c < NUM_INSTRUMENTS) ∧
    (∀ i, ((run env ops Synth.init).voices i).channel < MAX_VOICES) ∧
    (∀ i, rd (run env ops Synth.init).voiceInstrument 0
        ((run env ops Synth.init).voices i).channel < NUM_INSTRUMENTS) ∧
    (∀ channel, channel < MAX_VOICES →
      rd (run env ops Synth.init).voiceInstrument 0 channel < NUM_INSTRUMENTS) ∧
    (∀ phase : ℚ, sineIndex env phase < SINE_TABLE_SIZE) := by
  have hok := run_ok env ops Synth.init init_ok
  have hrd : ∀ channel, channel < MAX_VOICES →
      rd (run env ops Synth.init).voiceInstrument 0 channel < NUM_INSTRUMENTS := by
    intro channel hch
    unfold rd
    rw [dif_pos hch]
    exact hok.1 _
  exact ⟨hok.1, fun i => (hok.2 i).1, fun i => hrd _ (hok.2 i).1, hrd,
    fun phase => sineIndex_lt env phase⟩

/-! ## The envelope level -/

theorem apply_level (env : Env) (hbank : ∀ k, (env.instruments k).Valid) (op : Op)
    (s : Synth) (hs : s.Ok) (hl : ∀ i, (s.voices i).LevelOk) (j : Fin MAX_VOICES) :
    ((op.apply env s).voices j).LevelOk := by
  cases op with
  | setMaxNotes m => exact hl j
  | setVolume v => exact hl j
  | allNoteOff =>
    show ((allNoteOff s).voices j).LevelOk
    rw [allNoteOff_voices]
    split_ifs
    · exact ⟨le_refl _, zero_le_one⟩
    · exact hl j
  | alterVolNote c v => exact levelOk_of_fields (alterVolNote_fields env c v s j).2.2.2 (hl j)
  | alterPitchNote c b =>
    exact levelOk_of_fields (alterPitchNote_fields env c b s j).2.2.2 (hl j)
  | setInstrument c i =>
    show ((setInstrument c i s).voices j).LevelOk
    rw [setInstrument_voices]
    exact hl j
  | noteOn c n v =>
    show ((noteOn env c n v s).voices j).LevelOk
    rcases noteOn_voice_cases env c n v s j with h | ⟨_, _, h3⟩
    · rw [h]
      exact hl j
    · unfold FmVoice.LevelOk
      rw [h3]
      exact ⟨le_refl _, zero_le_one⟩
  | noteOff c n =>
    show ((noteOff env c n s).voices j).LevelOk
    rcases noteOff_voice_cases env c n s j with h | ⟨_, h2⟩
    · rw [h]
      exact hl j
    · rw [h2]
      exact hl j
  | initSineTable => exact hl j
  | generateSample =>
    show ((tick env s).voices j).LevelOk
    rw [tick_voices]
    exact voiceTick_level env s hbank hs _ (hs.2 j) (hl j)

theorem run_level (env : Env) (hbank : ∀ k, (env.instruments k).Valid) (ops : List Op)
    (s : Synth) (hs : s.Ok) (hl : ∀ i, (s.voices i).LevelOk) :
    ∀ i, ((run env ops s).voices i).LevelOk := by
  induction ops generalizing s with
  | nil => exact hl
  | cons op ops ih =>
    exact ih _ (apply_ok env op s hs) (fun j => apply_level env hbank op s hs hl j)

/-- C19: with a bank whose instruments have `sustain` in `[0, 1]` and positive attack,
decay and release times, in every state reached from program start by a sequence of calls
(control operations and sample ticks, in any order) every voice has
`0 <= currentLevel <= 1`. -/
theorem level_in_unit_interval (env : Env) (hbank : ∀ k, (env.instruments k).Valid)
    (ops : List Op) (i : Fin MAX_VOICES) :
    0 ≤ ((run env ops Synth.init).voices i).currentLevel ∧
    ((run env ops Synth.init).voices i).currentLevel ≤ 1 :=
  run_level env hbank ops Synth.init init_ok (fun _ => ⟨le_refl _, zero_le_one⟩) i

/-- The bank of the source meets the conditions of the specification. -/
theorem instruments_valid (k : Fin NUM_INSTRUMENTS) : (instruments k).Valid := by
  fin_cases k <;>
    simp only [Instrument.Valid, instruments, instrumentRows, List.getD_cons_zero,
      List.getD_cons_succ] <;>
    norm_num

/-- Instance of `level_in_unit_interval`: the bank of the source; a note struck on
instrument 8, released during Attack, the channel's instrument changed to instrument 1
while the note sounds. -/
theorem level_in_unit_interval_witness :
    (∀ k, (sampleEnv.instruments k).Valid) ∧
    0 ≤ ((run sampleEnv
      [Op.setInstrument 0 8, Op.noteOn 0 69 127, Op.generateSample, Op.noteOff 0 69,
        Op.generateSample, Op.setInstrument 0 1, Op.generateSample]
      Synth.init).voices 0).currentLevel ∧
    ((run sampleEnv
      [Op.setInstrument 0 8, Op.noteOn 0 69 127, Op.generateSample, Op.noteOff 0 69,
        Op.generateSample, Op.setInstrument 0 1, Op.generateSample]
      Synth.init).voices 0).currentLevel ≤ 1 :=
  ⟨instruments_valid, level_in_unit_interval sampleEnv instruments_valid _ 0⟩

/-! ## Time since note-on -/

/-- C18 at a concrete run: `noteOn(0, 69, 127)` from program start (instrument 0, attack
0.05 s) and 1000 sample ticks.  The voice is still active, in Attack, and its
`timeElapsed` is 0, not `1000 * TIME_STEP`. -/
theorem timeElapsed_not_since_noteOn :
    ((ticks sampleEnv 1000 (noteOn sampleEnv 0 69 127 Synth.init)).voices 0).active = true ∧
    ((ticks sampleEnv 1000 (noteOn sampleEnv 0 69 127 Synth.init)).voices 0).state
      = ADSR_ATTACK ∧
    ((ticks sampleEnv 1000 (noteOn sampleEnv 0 69 127 Synth.init)).voices 0).timeElapsed = 0 ∧
    ((ticks sampleEnv 1000 (noteOn sampleEnv 0 69 127 Synth.init)).voices 0).timeElapsed
      ≠ 1000 * TIME_STEP := by
  have hi : instrOf sampleEnv (noteOn sampleEnv 0 69 127 Synth.init) 0
      = ⟨57.6, 0, 0.05, 0.3, 0.6, 0.5, 256, 128, 51.2, 102.4⟩ := rfl
  have hfresh : Sounding ((noteOn sampleEnv 0 69 127 Synth.init).voices 0) ADSR_ATTACK 0 0 0 :=
    ⟨rfl, rfl, rfl, rfl, rfl⟩
  have h := attack_trace sampleEnv (noteOn sampleEnv 0 69 127 Synth.init) _ 0 0 hfresh
    (by rw [hi]; norm_num) 1000 (by rw [hi]; simp only [piano_ticks.1]; norm_num)
  rw [← ticks_voices] at h
  refine ⟨h.1, h.2.1, h.2.2.2.1, ?_⟩
  rw [h.2.2.2.1]
  unfold TIME_STEP
  norm_num

/-! ## Oscillator phases -/

/-- For a positive period `fmodf` of a non-negative argument is in `[0, y)`. -/
theorem fmodf_nonneg {x y : ℚ} (hy : 0 < y) (hx : 0 ≤ x) :
    0 ≤ fmodf x y ∧ fmodf x y < y := by
  have hq : 0 ≤ x / y := div_nonneg hx hy.le
  unfold fmodf
  rw [truncToInt_of_nonneg hq]
  have h1 : ((⌊x / y⌋ : ℤ) : ℚ) ≤ x / y := Int.floor_le _
  have h2 : x / y < ((⌊x / y⌋ : ℤ) : ℚ) + 1 := Int.lt_floor_add_one _
  have h3 : x = x / y * y := by field_simp
  have h4 : ((⌊x / y⌋ : ℤ) : ℚ) * y ≤ x / y * y := mul_le_mul_of_nonneg_right h1 hy.le
  have h5 : x / y * y < (((⌊x / y⌋ : ℤ) : ℚ) + 1) * y := mul_lt_mul_of_pos_right h2 hy
  constructor
  · linarith
  · linarith

/-- For a positive period `fmodf` of a non-positive argument is in `(-y, 0]`: the result
keeps the sign of the argument. -/
theorem fmodf_nonpos {x y : ℚ} (hy : 0 < y) (hx : x ≤ 0) :
    -y < fmodf x y ∧ fmodf x y ≤ 0 := by
  rcases eq_or_lt_of_le hx with h0 | hneg
  · rw [h0]
    simp [fmodf, truncToInt, hy]
  · have hq : x / y < 0 := div_neg_of_neg_of_pos hneg hy
    unfold fmodf truncToInt
    rw [if_neg (not_le.2 hq)]
    have h1 : x / y ≤ ((⌈x / y⌉ : ℤ) : ℚ) := Int.le_ceil _
    have h2 : ((⌈x / y⌉ : ℤ) : ℚ) < x / y + 1 := Int.ceil_lt_add_one _
    have h3 : x = x / y * y := by field_simp
    have h4 : x / y * y ≤ ((⌈x / y⌉ : ℤ) : ℚ) * y := mul_le_mul_of_nonneg_right h1 hy.le
    have h5 : ((⌈x / y⌉ : ℤ) : ℚ) * y < (x / y + 1) * y := mul_lt_mul_of_pos_right h2 hy
    constructor
    · linarith
    · linarith

theorem fmodf_abs_lt {x y : ℚ} (hy : 0 < y) : -y < fmodf x y ∧ fmodf x y < y := by
  rcases le_total 0 x with hx | hx
  · have := fmodf_nonneg hy hx
    exact ⟨by linarith, this.2⟩
  · have := fmodf_nonpos hy hx
    exact ⟨this.1, by linarith⟩

theorem updateADSR_osc (v : FmVoice) (instr : Instrument) (dt : ℚ) :
    (updateADSR v instr dt).phase = v.phase ∧ (updateADSR v instr dt).modPhase = v.modPhase ∧
    (updateADSR v instr dt).carrierFreq = v.carrierFreq ∧
    (updateADSR v instr dt).modulatorFreq = v.modulatorFreq ∧
    (updateADSR v instr dt).modulationIndex = v.modulationIndex := by
  unfold updateADSR
  dsimp only
  split_ifs <;> exact ⟨rfl, rfl, rfl, rfl, rfl⟩

/-- The modulator phase of an active voice after one tick. -/
theorem voiceTick_modPhase (env : Env) (s : Synth) (v : FmVoice) (hv : v.active = true) :
    (voiceTick env s v).modPhase
      = fmodf (v.modPhase + env.TWO_PI * v.modulatorFreq * TIME_STEP) env.TWO_PI := by
  obtain ⟨_, h2, _, h4, _⟩ := updateADSR_osc v (instrOf env s v.channel) TIME_STEP
  simp only [voiceTick, hv, if_true, voiceSample, h2, h4]

/-- The carrier phase of an active voice after one tick. -/
theorem voiceTick_phase (env : Env) (s : Synth) (v : FmVoice) (hv : v.active = true) :
    (voiceTick env s v).phase
      = fmodf (v.phase + env.TWO_PI *
          (v.carrierFreq + v.modulationIndex *
            rd s.sineTable 0 (sineIndex env
              (fmodf (v.modPhase + env.TWO_PI * v.modulatorFreq * TIME_STEP) env.TWO_PI)))
          * TIME_STEP) env.TWO_PI := by
  obtain ⟨h1, h2, h3, h4, h5⟩ := updateADSR_osc v (instrOf env s v.channel) TIME_STEP
  simp only [voiceTick, hv, if_true, voiceSample, h1, h2, h3, h4, h5]

theorem rd_sineTable_bounds (s : Synth) (hs : ∀ k, -1 ≤ s.sineTable k ∧ s.sineTable k ≤ 1)
    (i : Nat) : -1 ≤ rd s.sineTable 0 i ∧ rd s.sineTable 0 i ≤ 1 := by
  unfold rd
  split_ifs
  · exact hs _
  · constructor <;> norm_num

/-- C16 (as the code behaves): with `TWO_PI > 0`, for a voice that is active with
`modPhase` in `[0, 2π)` and `modulatorFreq >= 0`, after one sample tick its `modPhase` is
in `[0, 2π)` and its carrier phase is in `(-2π, 2π)`; the carrier phase is in `[0, 2π)`
when it was non-negative before, the sine-table entries are in `[-1, 1]` and
`0 <= modulationIndex <= carrierFreq`. -/
theorem phases_after_tick (env : Env) (s : Synth) (i : Fin MAX_VOICES)
    (hpi : 0 < env.TWO_PI) (hact : (s.voices i).active = true)
    (hm0 : 0 ≤ (s.voices i).modPhase) (hfm : 0 ≤ (s.voices i).modulatorFreq) :
    (0 ≤ ((tick env s).voices i).modPhase ∧ ((tick env s).voices i).modPhase < env.TWO_PI) ∧
    (-env.TWO_PI < ((tick env s).voices i).phase ∧
      ((tick env s).voices i).phase < env.TWO_PI) ∧
    (0 ≤ (s.voices i).phase → (∀ k, -1 ≤ s.sineTable k ∧ s.sineTable k ≤ 1) →
      0 ≤ (s.voices i).modulationIndex →
      (s.voices i).modulationIndex ≤ (s.voices i).carrierFreq →
      0 ≤ ((tick env s).voices i).phase ∧ ((tick env s).voices i).phase < env.TWO_PI) := by
  have hdt : (0 : ℚ) < TIME_STEP := by
    unfold TIME_STEP
    norm_num
  rw [tick_voices, voiceTick_modPhase env s _ hact, voiceTick_phase env s _ hact]
  refine ⟨?_, fmodf_abs_lt hpi, ?_⟩
  · apply fmodf_nonneg hpi
    have : 0 ≤ env.TWO_PI * (s.voices i).modulatorFreq * TIME_STEP :=
      mul_nonneg (mul_nonneg hpi.le hfm) hdt.le
    linarith
  · intro hp0 htab hmi0 hmi1
    apply fmodf_nonneg hpi
    have hsin := rd_sineTable_bounds s htab (sineIndex env
      (fmodf ((s.voices i).modPhase + env.TWO_PI * (s.voices i).modulatorFreq * TIME_STEP)
        env.TWO_PI))
    have hsum : 0 ≤ (s.voices i).carrierFreq + (s.voices i).modulationIndex *
        rd s.sineTable 0 (sineIndex env
          (fmodf ((s.voices i).modPhase + env.TWO_PI * (s.voices i).modulatorFreq * TIME_STEP)
            env.TWO_PI)) := by
      nlinarith [hsin.1, hsin.2]
    have : 0 ≤ env.TWO_PI * ((s.voices i).carrierFreq + (s.voices i).modulationIndex *
        rd s.sineTable 0 (sineIndex env
          (fmodf ((s.voices i).modPhase + env.TWO_PI * (s.voices i).modulatorFreq * TIME_STEP)
            env.TWO_PI))) * TIME_STEP :=
      mul_nonneg (mul_nonneg hpi.le hsum) hdt.le
    linarith

theorem fmodf_of_nonneg_lt {x y : ℚ} (hx : 0 ≤ x) (hxy : x < y) : fmodf x y = x := by
  have hy : 0 < y := lt_of_le_of_lt hx hxy
  have hq0 : 0 ≤ x / y := div_nonneg hx hy.le
  have hq1 : x / y < 1 := (div_lt_one hy).2 hxy
  unfold fmodf
  rw [truncToInt_of_nonneg hq0]
  have hfl : ⌊x / y⌋ = 0 := by
    rw [Int.floor_eq_iff]
    constructor
    · simpa using hq0
    · simpa using hq1
  rw [hfl]
  simp

theorem fmodf_of_neg_gt {x y : ℚ} (hx : x < 0) (hxy : -y < x) : fmodf x y = x := by
  have hy : 0 < y := by linarith
  have hq0 : x / y < 0 := div_neg_of_neg_of_pos hx hy
  have hq1 : -1 < x / y := by
    rw [lt_div_iff₀ hy]
    linarith
  unfold fmodf truncToInt
  rw [if_neg (not_le.2 hq0)]
  have hcl : ⌈x / y⌉ = 0 := by
    rw [Int.ceil_eq_iff]
    constructor
    · simpa using hq1
    · simpa using hq0.le
  rw [hcl]
  simp

theorem bhaskara_bounds (t : ℚ) (h0 : 0 ≤ t) (h1 : t ≤ 1) :
    0 ≤ 16 * t * (1 - t) / (5 - 4 * t * (1 - t)) ∧
    16 * t * (1 - t) / (5 - 4 * t * (1 - t)) ≤ 1 := by
  have hu0 : 0 ≤ t * (1 - t) := mul_nonneg h0 (by linarith)
  have hu1 : t * (1 - t) ≤ 1 / 4 := by nlinarith [sq_nonneg (t - 1 / 2)]
  have hden : 0 < 5 - 4 * t * (1 - t) := by nlinarith
  constructor
  · exact div_nonneg (by nlinarith) hden.le
  · rw [div_le_one hden]
    nlinarith

theorem approxSineTable_bounds (k : Fin SINE_TABLE_SIZE) :
    -1 ≤ approxSineTable k ∧ approxSineTable k ≤ 1 := by
  have hk : ((k.val : ℕ) : ℚ) < 2048 := by exact_mod_cast k.isLt
  have hk0 : (0 : ℚ) ≤ ((k.val : ℕ) : ℚ) := Nat.cast_nonneg _
  unfold approxSineTable
  split_ifs with h
  · have h' : ((k.val : ℕ) : ℚ) ≤ 1024 := by exact_mod_cast h
    have hb := bhaskara_bounds (((k.val : ℕ) : ℚ) / 1024) (by linarith) (by linarith)
    exact ⟨by linarith [hb.1], hb.2⟩
  · have h' : (1024 : ℚ) < ((k.val : ℕ) : ℚ) := by exact_mod_cast not_le.1 h
    have hb := bhaskara_bounds (((k.val : ℕ) : ℚ) / 1024 - 1) (by linarith) (by linarith)
    have heq : (2 : ℚ) - ((k.val : ℕ) : ℚ) / 1024 = 1 - (((k.val : ℕ) : ℚ) / 1024 - 1) := by
      ring
    rw [heq]
    exact ⟨by linarith [hb.2], by linarith [hb.1]⟩

theorem lowNote_voice :
    (lowNote.voices 0).active = true ∧ (lowNote.voices 0).phase = 0 ∧
    (lowNote.voices 0).modPhase = 3 / 4 * sampleEnv.TWO_PI ∧
    (lowNote.voices 0).carrierFreq = 8.17579891 ∧
    (lowNote.voices 0).modulatorFreq = 8.17579891 ∧
    (lowNote.voices 0).modulationIndex = 51.2 := by
  have hc : (lowNote.voices 0).carrierFreq = midi2Freq sampleEnv
      (toUint8 (((0 : ℕ) : ℚ) + (instrOf sampleEnv Synth.init 0).pitchOffset)) := rfl
  have hm : (lowNote.voices 0).modulatorFreq = midi2Freq sampleEnv
      (toUint8 (((0 : ℕ) : ℚ) + (instrOf sampleEnv Synth.init 0).pitchOffset))
      * (instrOf sampleEnv Synth.init 0).fmFreqMultiplier / 256 := rfl
  have hi : (lowNote.voices 0).modulationIndex = (instrOf sampleEnv Synth.init 0).fmAmpStart
      + ((instrOf sampleEnv Synth.init 0).fmAmpEnd - (instrOf sampleEnv Synth.init 0).fmAmpStart)
        * (((127 : ℕ) : ℚ) / 127) := rfl
  refine ⟨by decide, rfl, rfl, ?_, ?_, ?_⟩
  · rw [hc, instrOf_sampleEnv_init, instruments_piano]
    norm_num [midi2Freq, sampleEnv, toUint8, truncToInt]
  · rw [hm, instrOf_sampleEnv_init, instruments_piano]
    norm_num [midi2Freq, sampleEnv, toUint8, truncToInt]
  · rw [hi, instrOf_sampleEnv_init, instruments_piano]
    norm_num

/-- C16 fails as stated: in `lowNote` the only active voice is as `noteOn(0, 0, 127)`
writes it on instrument 0, with carrier phase 0 and modulator phase `3/4 * TWO_PI`, both in
`[0, 2π)`.  One sample tick reads the table at index 1536, where the sine is -1, so the
carrier advances by `TWO_PI * (8.17579891 - 51.2) / 44100 < 0` and its phase, which
`fmodf` leaves with its sign, is negative. -/
theorem carrier_phase_counterexample :
    0 < sampleEnv.TWO_PI ∧
    (∀ k, -1 ≤ lowNote.sineTable k ∧ lowNote.sineTable k ≤ 1) ∧
    (∀ i, (lowNote.voices i).active = true →
      (0 ≤ (lowNote.voices i).phase ∧ (lowNote.voices i).phase < sampleEnv.TWO_PI) ∧
      (0 ≤ (lowNote.voices i).modPhase ∧ (lowNote.voices i).modPhase < sampleEnv.TWO_PI)) ∧
    lowNote.voices 0 = { ((noteOn sampleEnv 0 0 127 Synth.init).voices 0) with
      modPhase := 3 / 4 * sampleEnv.TWO_PI } ∧
    sineIndex sampleEnv ((tick sampleEnv lowNote).voices 0).modPhase = 1536 ∧
    ((tick sampleEnv lowNote).voices 0).active = true ∧
    ((tick sampleEnv lowNote).voices 0).phase
      = sampleEnv.TWO_PI * (8.17579891 - 51.2) * TIME_STEP ∧
    ((tick sampleEnv lowNote).voices 0).phase < 0 := by
  obtain ⟨hact, hph, hmp, hcf, hmf, hmi⟩ := lowNote_voice
  have hpi : sampleEnv.TWO_PI = 6.283185307179586 := rfl
  have hpos : 0 < sampleEnv.TWO_PI := by rw [hpi]; norm_num
  have hhyp : ∀ i, (lowNote.voices i).active = true →
      (0 ≤ (lowNote.voices i).phase ∧ (lowNote.voices i).phase < sampleEnv.TWO_PI) ∧
      (0 ≤ (lowNote.voices i).modPhase ∧ (lowNote.voices i).modPhase < sampleEnv.TWO_PI) := by
    intro i hi
    have hi0 : i = 0 := by
      by_contra hne
      have hina : ∀ j : Fin MAX_VOICES, j ≠ 0 → (lowNote.voices j).active = false := by decide
      rw [hina i hne] at hi
      exact absurd hi (by decide)
    rw [hi0, hph, hmp, hpi]
    norm_num
  have hmod : ((tick sampleEnv lowNote).voices 0).modPhase
      = 3 / 4 * sampleEnv.TWO_PI + sampleEnv.TWO_PI * 8.17579891 * TIME_STEP := by
    rw [tick_voices, voiceTick_modPhase sampleEnv lowNote _ hact, hmp, hmf]
    apply fmodf_of_nonneg_lt
    · rw [hpi]
      unfold TIME_STEP
      norm_num
    · rw [hpi]
      unfold TIME_STEP
      norm_num
  have hidx : sineIndex sampleEnv
      (3 / 4 * sampleEnv.TWO_PI + sampleEnv.TWO_PI * 8.17579891 * TIME_STEP) = 1536 := by
    have htr : truncToInt ((3 / 4 * sampleEnv.TWO_PI
        + sampleEnv.TWO_PI * 8.17579891 * TIME_STEP) * SINE_SCALE sampleEnv) = 1536 := by
      have hq : (3 / 4 * sampleEnv.TWO_PI + sampleEnv.TWO_PI * 8.17579891 * TIME_STEP)
          * SINE_SCALE sampleEnv = 2048 * (3 / 4 + 8.17579891 / 44100) := by
        unfold SINE_SCALE TIME_STEP
        rw [hpi]
        norm_num
      rw [hq, truncToInt_of_nonneg (by norm_num), Int.floor_eq_iff]
      constructor <;> norm_num
    unfold sineIndex
    rw [htr]
    decide
  have htab : rd lowNote.sineTable 0 1536 = -1 := by
    have : rd lowNote.sineTable 0 1536 = approxSineTable ⟨1536, by decide⟩ := rfl
    rw [this]
    norm_num [approxSineTable]
  have hphase : ((tick sampleEnv lowNote).voices 0).phase
      = sampleEnv.TWO_PI * (8.17579891 - 51.2) * TIME_STEP := by
    have hm' := hmod
    rw [tick_voices, voiceTick_modPhase sampleEnv lowNote _ hact] at hm'
    rw [tick_voices, voiceTick_phase sampleEnv lowNote _ hact, hm', hidx, htab, hph, hcf, hmi]
    have hx : (0 : ℚ) + sampleEnv.TWO_PI * (8.17579891 + 51.2 * -1) * TIME_STEP
        = sampleEnv.TWO_PI * (8.17579891 - 51.2) * TIME_STEP := by ring
    rw [hx]
    apply fmodf_of_neg_gt
    · rw [hpi]
      unfold TIME_STEP
      norm_num
    · rw [hpi]
      unfold TIME_STEP
      norm_num
  have hsnd : Sounding (lowNote.voices 0) ADSR_ATTACK 0 0 0 := ⟨rfl, rfl, rfl, rfl, rfl⟩
  have hafter : ((tick sampleEnv lowNote).voices 0).active = true := by
    rw [tick_voices]
    by_cases hlt : (0 : ℚ) + TIME_STEP / (instrOf sampleEnv lowNote 0).attack < 1
    · exact ((attack_step sampleEnv lowNote _ 0 0 0 hsnd).1 hlt).1
    · exact ((attack_step sampleEnv lowNote _ 0 0 0 hsnd).2 (not_lt.1 hlt)).1
  refine ⟨hpos, fun k => approxSineTable_bounds k, hhyp, rfl, ?_, hafter, hphase, ?_⟩
  · rw [hmod, hidx]
  · rw [hphase, hpi]
    unfold TIME_STEP
    norm_num

/-- Instance of `phases_after_tick`: the voice of `lowNote`; after one tick the modulator
phase is in `[0, 2π)` and the carrier phase in `(-2π, 2π)`. -/
theorem phases_after_tick_witness :
    0 < sampleEnv.TWO_PI ∧ (lowNote.voices 0).active = true ∧
    0 ≤ (lowNote.voices 0).modPhase ∧ 0 ≤ (lowNote.voices 0).modulatorFreq ∧
    (0 ≤ ((tick sampleEnv lowNote).voices 0).modPhase ∧
      ((tick sampleEnv lowNote).voices 0).modPhase < sampleEnv.TWO_PI) ∧
    (-sampleEnv.TWO_PI < ((tick sampleEnv lowNote).voices 0).phase ∧
      ((tick sampleEnv lowNote).voices 0).phase < sampleEnv.TWO_PI) := by
  obtain ⟨hact, _, hmp, _, hmf, _⟩ := lowNote_voice
  have hpi : sampleEnv.TWO_PI = 6.283185307179586 := rfl
  have hpos : 0 < sampleEnv.TWO_PI := by rw [hpi]; norm_num
  have hm0 : 0 ≤ (lowNote.voices 0).modPhase := by rw [hmp, hpi]; norm_num
  have hfm : 0 ≤ (lowNote.voices 0).modulatorFreq := by rw [hmf]; norm_num
  have h := phases_after_tick sampleEnv lowNote 0 hpos hact hm0 hfm
  exact ⟨hpos, hact, hm0, hfm, h.1, h.2.1⟩

/-! ## Note frequencies -/

/-- The function `midi2Freq` of the embedding is `midi2FreqOver` read over `ℚ`. -/
theorem midi2Freq_eq_over (env : Env) (midiNote : Nat) :
    midi2Freq env midiNote = midi2FreqOver env.expf midiNote := by
  unfold midi2Freq midi2FreqOver
  norm_num

/-- The ratio of `midi2Freq` read over the reals to the equal-tempered frequency. -/
theorem midi2Freq_ratio (n : Nat) (hn : n ≤ 127) :
    ∃ ρ : ℝ, 0.999 ≤ ρ ∧ ρ ≤ 1.001 ∧
      midi2FreqOver Real.exp n = ρ * (440 * (2 : ℝ) ^ (((n : ℝ) - 69) / 12)) := by
  have hL1 := Real.log_two_gt_d9
  have hL2 := Real.log_two_lt_d9
  have hn1 : (n : ℝ) ≤ 127 := by exact_mod_cast hn
  have hn0 : (0 : ℝ) ≤ (n : ℝ) := Nat.cast_nonneg n
  have htwo : (0 : ℝ) < 2 := by norm_num
  have hT : (2 : ℝ) ^ (((n : ℝ) - 69) / 12) = Real.exp (Real.log 2 * (((n : ℝ) - 69) / 12)) :=
    Real.rpow_def_of_pos htwo _
  have hM : Real.exp (0.05776226 * (n : ℝ))
      = Real.exp (0.05776226 * (n : ℝ) - Real.log 2 * (((n : ℝ) - 69) / 12))
        * Real.exp (Real.log 2 * (((n : ℝ) - 69) / 12)) := by
    rw [← Real.exp_add]
    congr 1
    ring
  have h4 : Real.exp (0.05776226 * (n : ℝ) - Real.log 2 * (((n : ℝ) - 69) / 12)) ^ 4
      = 2 ^ 23 * Real.exp ((n : ℝ) * (4 * 0.05776226 - Real.log 2 / 3)) := by
    rw [← Real.exp_nat_mul]
    have harg : ((4 : ℕ) : ℝ) * (0.05776226 * (n : ℝ) - Real.log 2 * (((n : ℝ) - 69) / 12))
        = ((23 : ℕ) : ℝ) * Real.log 2 + (n : ℝ) * (4 * 0.05776226 - Real.log 2 / 3) := by
      push_cast
      ring
    rw [harg, Real.exp_add, Real.exp_nat_mul, Real.exp_log htwo]
  have hk0 : -(1 / 100000 : ℝ) ≤ (n : ℝ) * (4 * 0.05776226 - Real.log 2 / 3) := by
    have hk : -(1 / 10000000 : ℝ) ≤ 4 * 0.05776226 - Real.log 2 / 3 := by
      norm_num
      linarith
    nlinarith
  have hk1 : (n : ℝ) * (4 * 0.05776226 - Real.log 2 / 3) ≤ 0 := by
    have hk : 4 * 0.05776226 - Real.log 2 / 3 ≤ 0 := by
      norm_num
      linarith
    exact mul_nonpos_of_nonneg_of_nonpos hn0 hk
  have hu1 : Real.exp ((n : ℝ) * (4 * 0.05776226 - Real.log 2 / 3)) ≤ 1 := by
    rw [← Real.exp_zero]
    exact Real.exp_le_exp.2 hk1
  have hu0 : 1 - (1 / 100000 : ℝ)
      ≤ Real.exp ((n : ℝ) * (4 * 0.05776226 - Real.log 2 / 3)) := by
    have := Real.add_one_le_exp ((n : ℝ) * (4 * 0.05776226 - Real.log 2 / 3))
    linarith
  have hρpos : 0 < 8.17579891 / 440
      * Real.exp (0.05776226 * (n : ℝ) - Real.log 2 * (((n : ℝ) - 69) / 12)) :=
    mul_pos (by norm_num) (Real.exp_pos _)
  have hρ4 : (8.17579891 / 440
      * Real.exp (0.05776226 * (n : ℝ) - Real.log 2 * (((n : ℝ) - 69) / 12))) ^ 4
      = (8.17579891 / 440) ^ 4 * 2 ^ 23
        * Real.exp ((n : ℝ) * (4 * 0.05776226 - Real.log 2 / 3)) := by
    rw [mul_pow, h4]
    ring
  refine ⟨8.17579891 / 440
    * Real.exp (0.05776226 * (n : ℝ) - Real.log 2 * (((n : ℝ) - 69) / 12)), ?_, ?_, ?_⟩
  · by_contra hlt
    have hlt' := not_le.1 hlt
    have hpow := pow_lt_pow_left₀ hlt' hρpos.le (by norm_num : (4 : ℕ) ≠ 0)
    rw [hρ4] at hpow
    have hK : (0.999 : ℝ) ^ 4 < (8.17579891 / 440) ^ 4 * 2 ^ 23 * (1 - 1 / 100000) := by
      norm_num
    have hKpos : (0 : ℝ) < (8.17579891 / 440) ^ 4 * 2 ^ 23 := by positivity
    nlinarith
  · by_contra hgt
    have hgt' := not_le.1 hgt
    have hpow := pow_lt_pow_left₀ hgt' (by norm_num : (0 : ℝ) ≤ 1.001)
      (by norm_num : (4 : ℕ) ≠ 0)
    rw [hρ4] at hpow
    have hK : (8.17579891 / 440 : ℝ) ^ 4 * 2 ^ 23 < (1.001 : ℝ) ^ 4 := by
      norm_num
    have hKpos : (0 : ℝ) < (8.17579891 / 440) ^ 4 * 2 ^ 23 := by positivity
    nlinarith
  · unfold midi2FreqOver
    rw [hT, hM]
    ring

/-- C14: read over the real numbers, with `expf` the real exponential, `midi2Freq(n)` is
within 0.1% of the equal-tempered frequency `440 * 2^((n - 69) / 12)` for every MIDI note
`n` in `0..127`; for `n = 69` it is within 0.1% of 440 Hz. -/
theorem midi2Freq_equal_temperament (n : Nat) (hn : n ≤ 127) :
    |midi2FreqOver Real.exp n - 440 * (2 : ℝ) ^ (((n : ℝ) - 69) / 12)|
      ≤ 0.001 * (440 * (2 : ℝ) ^ (((n : ℝ) - 69) / 12)) ∧
    (n = 69 → |midi2FreqOver Real.exp n - 440| ≤ 0.001 * 440) := by
  obtain ⟨ρ, h0, h1, hM⟩ := midi2Freq_ratio n hn
  have hT : 0 < 440 * (2 : ℝ) ^ (((n : ℝ) - 69) / 12) :=
    mul_pos (by norm_num) (Real.rpow_pos_of_pos (by norm_num) _)
  have hmain : |midi2FreqOver Real.exp n - 440 * (2 : ℝ) ^ (((n : ℝ) - 69) / 12)|
      ≤ 0.001 * (440 * (2 : ℝ) ^ (((n : ℝ) - 69) / 12)) := by
    rw [hM, abs_le]
    constructor
    · nlinarith
    · nlinarith
  refine ⟨hmain, ?_⟩
  intro h69
  have hpow : (2 : ℝ) ^ (((n : ℝ) - 69) / 12) = 1 := by
    rw [h69]
    norm_num
  rw [hpow, mul_one] at hmain
  exact hmain

/-- Instance of `midi2Freq_equal_temperament`: note 69 is within 0.1% of 440 Hz. -/
theorem midi2Freq_equal_temperament_witness :
    (69 : Nat) ≤ 127 ∧ |midi2FreqOver Real.exp 69 - 440| ≤ 0.001 * 440 :=
  ⟨by decide, (midi2Freq_equal_temperament 69 (by decide)).2 rfl⟩

/-! ## The sample buffer -/

theorem fillBuffer_fold (env : Env) (l : List Nat) (acc : Synth × List Nat)
    (h : ∀ w ∈ acc.2, ∃ sample : ℤ, w = stereoWord sample) :
    ((l.foldl
        (fun (acc : Synth × List Nat) _ =>
          ((generateSample env acc.1).1, acc.2 ++ [stereoWord (generateSample env acc.1).2]))
        acc).2.length = acc.2.length + l.length) ∧
    ∀ w ∈ (l.foldl
        (fun (acc : Synth × List Nat) _ =>
          ((generateSample env acc.1).1, acc.2 ++ [stereoWord (generateSample env acc.1).2]))
        acc).2, ∃ sample : ℤ, w = stereoWord sample := by
  induction l generalizing acc with
  | nil => exact ⟨rfl, h⟩
  | cons a l ih =>
    rw [List.foldl_cons]
    have h' : ∀ w ∈ (acc.2 ++ [stereoWord (generateSample env acc.1).2]),
        ∃ sample : ℤ, w = stereoWord sample := by
      intro w hw
      rcases List.mem_append.1 hw with h1 | h1
      · exact h w h1
      · exact ⟨_, List.mem_singleton.1 h1⟩
    obtain ⟨hlen, hall⟩ := ih ((generateSample env acc.1).1,
      acc.2 ++ [stereoWord (generateSample env acc.1).2]) h'
    refine ⟨?_, hall⟩
    have hl2 : (acc.2 ++ [stereoWord (generateSample env acc.1).2]).length
        = acc.2.length + 1 := by
      rw [List.length_append, List.length_singleton]
    rw [hlen, List.length_cons]
    show (acc.2 ++ [stereoWord (generateSample env acc.1).2]).length + l.length
      = acc.2.length + (l.length + 1)
    rw [hl2]
    omega

/-- One pass of the loop of `synthProcess` stores `SAMPLE_BUFFER_SIZE` words, and in each
of them the upper and the lower 16 bits are equal. -/
theorem fillBuffer_words (env : Env) (s : Synth) :
    (fillBuffer env s).2.length = SAMPLE_BUFFER_SIZE ∧
    ∀ w ∈ (fillBuffer env s).2, w / 65536 = w % 65536 := by
  obtain ⟨hlen, hall⟩ := fillBuffer_fold env (List.range SAMPLE_BUFFER_SIZE) (s, [])
    (fun w hw => absurd hw (List.not_mem_nil w))
  refine ⟨?_, ?_⟩
  · unfold fillBuffer
    rw [hlen, List.length_range]
    rfl
  · intro w hw
    obtain ⟨sample, hs⟩ := hall w hw
    rw [hs, stereoWord_eq]
    have hB : (sample % 65536).toNat < 65536 := by
      have := Int.emod_lt_of_pos sample (by norm_num : (0 : ℤ) < 65536)
      have := Int.emod_nonneg sample (by norm_num : (65536 : ℤ) ≠ 0)
      omega
    omega

end MiniFmSynth
